import Mathlib

/-!
Verification of the résumé analysis & scoring engine of this repository
(`resume-parser.js`, class `ResumeScorer`, plus the "enhanced" variant of
`detectSpecialization` found in the unnamed source file).

The engine is shallowly embedded: JavaScript strings become `List Char`
("`Text`"), the regular-expression tests and global-match counts used by the
source are implemented by dedicated scanners whose semantics mirror the
JavaScript regex engine on the pattern shapes the source uses (literal
alternations, lazy `.*?` completions that cannot cross a newline, bounded
greedy gaps, character classes).  JavaScript numbers are modelled by `ℚ`
(every number the engine produces is a small multiple of 0.5, hence exact in
IEEE doubles, so `ℚ` agrees with the JS semantics on all values reached
here), `Math.round`/`Math.floor` by the corresponding integer operations,
and `Math.min`/`Math.max` by `min`/`max`.

Throughout, the optional AI keyword extractor (`window.aiKeywordExtractor`)
is taken to be unavailable, i.e. every `aiExtraction` parameter is `null`;
this is the configuration all claims are stated in.  `String.toLowerCase`
is modelled by ASCII lowercasing (`Char.toLower`); all case-insensitive
patterns of the source only involve ASCII letters or CJK characters, where
the two coincide.
-/

/-- JavaScript strings, as lists of Unicode scalar values. -/
abbrev Text := List Char

/-- Conversion from a Lean string literal to `Text`. -/
def txt (s : String) : Text := s.data

/-- JavaScript `String.prototype.length` counts UTF-16 code units: an
astral-plane character counts 2, every BMP character counts 1. -/
def jsLength (s : Text) : ℕ :=
  (s.map (fun c => if c.val ≥ 0x10000 then 2 else 1)).sum

/-- The JavaScript `\s` whitespace class (the code points the ECMAScript
spec lists as WhiteSpace or LineTerminator). -/
def isJsWs (c : Char) : Bool :=
  c ∈ [' ', '\t', '\n', '\r', '\x0b', '\x0c', '\u00A0', '\u1680',
       '\u2000', '\u2001', '\u2002', '\u2003', '\u2004', '\u2005',
       '\u2006', '\u2007', '\u2008', '\u2009', '\u200A', '\u2028',
       '\u2029', '\u202F', '\u205F', '\u3000', '\uFEFF']

/-- `String.prototype.toLowerCase`, restricted to ASCII (all
case-insensitive matching in the source involves only ASCII or CJK). -/
def lowerT (s : Text) : Text := s.map Char.toLower

/-- JavaScript `String.prototype.includes(pat)` / a regex test for a literal
pattern: `pat` occurs as a contiguous substring of `s`. -/
def containsSub (pat s : Text) : Bool :=
  s.tails.any (fun t => pat.isPrefixOf t)

/-- Regex test for a literal alternation `/(a|b|...)/`: some literal occurs
in `s`. -/
def containsAny (pats : List Text) (s : Text) : Bool :=
  pats.any (fun p => containsSub p s)

/-- `String.prototype.split` on a set of single-character separators (used
to model the `[^。\n]`-delimited segments that the education patterns are
confined to). -/
def splitOnChars (seps : List Char) : Text → List Text
  | [] => [[]]
  | c :: cs =>
    let r := splitOnChars seps cs
    if c ∈ seps then [] :: r
    else
      match r with
      | [] => [[c]]
      | h :: t => (c :: h) :: t

/-- Number of matches of a global literal-alternation regex `/(a|b|...)/g`:
the scanner walks left to right, at each position tries the alternatives in
order, counts a match and skips past it, otherwise advances one character.
For the alternation lists used by the source no two distinct occurrences
overlap, so this is exactly `String.prototype.match(...).length`.
(All alternatives used are nonempty; the `a.length - 1` indexing makes the
recursion structurally decreasing and agrees with skipping `a.length`
characters from `c :: cs`.) -/
def countAltsAux (alts : List Text) : ℕ → Text → ℕ
  | _, [] => 0
  | 0, _ :: _ => 0
  | fuel + 1, c :: cs =>
    match alts.find? (fun a => a.isPrefixOf (c :: cs)) with
    | some a => countAltsAux alts fuel (cs.drop (a.length - 1)) + 1
    | none => countAltsAux alts fuel cs

/-- Every scanner step consumes at least one character, so fuel equal to the
length of the string runs the scan to completion; the fuel only serves to
make the recursion structural (and hence kernel-evaluable). -/
def countAlts (alts : List Text) (s : Text) : ℕ := countAltsAux alts s.length s

/-- Earliest match of a literal alternation inside a lazy `.*?` completion:
returns the index of the first position where some alternative is a prefix,
together with that alternative's length.  The search stops at a newline,
because `.` in a JavaScript regex does not match line terminators. -/
def findCompletion (alts : List Text) : Text → Option (ℕ × ℕ)
  | [] => none
  | c :: cs =>
    match alts.find? (fun a => a.isPrefixOf (c :: cs)) with
    | some a => some (0, a.length)
    | none =>
      if c = '\n' then none
      else (findCompletion alts cs).map (fun il => (il.1 + 1, il.2))

/-- Number of matches of a global regex `/(k₁|k₂|…).*?(s₁|s₂|…)/g`: at each
position, if some key `kᵢ` is a prefix, the lazy `.*?` looks for the
earliest completion `sⱼ` (not crossing a newline); on success the match is
counted and the scan resumes after it, otherwise (and when no key matches)
the scan advances one character — exactly the JavaScript engine's
behaviour.  All keys used are nonempty (`pr.1.length - 1` as in
`countAlts`). -/
def countLazyAux (pairs : List (Text × List Text)) : ℕ → Text → ℕ
  | _, [] => 0
  | 0, _ :: _ => 0
  | fuel + 1, c :: cs =>
    match pairs.find? (fun pr => pr.1.isPrefixOf (c :: cs)) with
    | some pr =>
      match findCompletion pr.2 (cs.drop (pr.1.length - 1)) with
      | some il => countLazyAux pairs fuel ((cs.drop (pr.1.length - 1)).drop (il.1 + il.2)) + 1
      | none => countLazyAux pairs fuel cs
    | none => countLazyAux pairs fuel cs

/-- Fuel = length runs the scan to completion, as in `countAlts`. -/
def countLazy (pairs : List (Text × List Text)) (s : Text) : ℕ :=
  countLazyAux pairs s.length s

/-- Greedy bounded-gap completion for `/(k).{0,g}(s)/`: `.{0,g}` is greedy,
so the engine consumes the largest `k ≤ g` newline-free characters after
which some alternative matches.  Returns (gap, alternative length). -/
def findGreedyCompletion (alts : List Text) (gap : ℕ) (s : Text) : Option (ℕ × ℕ) :=
  ((List.range (gap + 1)).reverse.filterMap (fun k =>
    if (s.take k).all (fun c => c ≠ '\n') ∧ (s.take k).length = k then
      match alts.find? (fun a => a.isPrefixOf (s.drop k)) with
      | some a => some (k, a.length)
      | none => none
    else none)).head?

/-- Number of matches of a global regex `/(k₁|…).{0,g}(s₁|…)/g` (greedy
bounded gap), with the same scan discipline as `countLazy`. -/
def countGreedyPairAux (keys alts : List Text) (gap : ℕ) : ℕ → Text → ℕ
  | _, [] => 0
  | 0, _ :: _ => 0
  | fuel + 1, c :: cs =>
    match keys.find? (fun k => k.isPrefixOf (c :: cs)) with
    | some k =>
      match findGreedyCompletion alts gap (cs.drop (k.length - 1)) with
      | some il =>
        countGreedyPairAux keys alts gap fuel ((cs.drop (k.length - 1)).drop (il.1 + il.2)) + 1
      | none => countGreedyPairAux keys alts gap fuel cs
    | none => countGreedyPairAux keys alts gap fuel cs

/-- Fuel = length runs the scan to completion, as in `countAlts`. -/
def countGreedyPair (keys alts : List Text) (gap : ℕ) (s : Text) : ℕ :=
  countGreedyPairAux keys alts gap s.length s

/-- JavaScript `Math.round` on an exactly-represented value: round half
toward positive infinity. -/
def jsRound (q : ℚ) : ℤ := Rat.floor (q + 1/2)

/-- Digit run to a natural number. -/
def digitsToNat (s : Text) : ℕ :=
  s.foldl (fun n c => n * 10 + (c.toNat - '0'.toNat)) 0

/-- JavaScript `parseFloat` on a string drawn from `[0-9.]+` (the only shape
the source ever passes): leading digits, an optional dot, fractional digits;
a second dot stops the parse; a string with no digits before the first
non-numeric position yields `NaN` (modelled as `none`). -/
def jsParseFloat (s : Text) : Option ℚ :=
  let intPart := s.takeWhile Char.isDigit
  let rest := s.drop intPart.length
  match rest with
  | '.' :: r2 =>
    let frac := r2.takeWhile Char.isDigit
    if intPart = [] ∧ frac = [] then none
    else some ((digitsToNat intPart : ℚ) + (digitsToNat frac : ℚ) / 10 ^ frac.length)
  | _ => if intPart = [] then none else some (digitsToNat intPart : ℚ)

/-- `x >= bound` on a possibly-`NaN` JavaScript number (`NaN` compares
false). -/
def qGe (x : Option ℚ) (bound : ℚ) : Bool :=
  match x with
  | some q => bound ≤ q
  | none => false

/-- `x > bound` on a possibly-`NaN` JavaScript number. -/
def qGt (x : Option ℚ) (bound : ℚ) : Bool :=
  match x with
  | some q => bound < q
  | none => false

/-- Earliest occurrence of a literal alternation (index and matched length),
with no newline cutoff (used inside segments already known to be free of
delimiters). -/
def findAltIdx (alts : List Text) : Text → Option (ℕ × ℕ)
  | [] => none
  | c :: cs =>
    match alts.find? (fun a => a.isPrefixOf (c :: cs)) with
    | some a => some (0, a.length)
    | none => (findAltIdx alts cs).map (fun il => (il.1 + 1, il.2))

namespace ResumeScorer

/-! ### Static reference tables (`this.maxScores`, `this.schoolRanks`,
`this.skillKeywords` from the constructor) -/

def maxScores_basicInfo : ℤ := 10
def maxScores_education : ℤ := 25
def maxScores_skills : ℤ := 20
def maxScores_experience : ℤ := 30
def maxScores_achievements : ℤ := 15

def schoolRanks_topTier : List Text := [txt "清华大学", txt "北京大学", txt "清华", txt "北大"]

def schoolRanks_tier1A : List Text :=
  [txt "复旦大学", txt "上海交通大学", txt "浙江大学", txt "中国科学技术大学", txt "南京大学",
   txt "中国人民大学", txt "北京航空航天大学", txt "北京理工大学",
   txt "中国科学院大学", txt "南方科技大学",
   txt "复旦", txt "交大", txt "浙大", txt "中科大", txt "南大", txt "人大", txt "北航",
   txt "北理工", txt "国科大", txt "南科大"]

def schoolRanks_tier1B : List Text :=
  [txt "西安交通大学", txt "哈尔滨工业大学", txt "华中科技大学", txt "同济大学",
   txt "东南大学", txt "天津大学", txt "北京师范大学", txt "南开大学",
   txt "中山大学", txt "西北工业大学", txt "华东师范大学",
   txt "西交", txt "哈工大", txt "华科", txt "同济", txt "东南", txt "天大", txt "北师大",
   txt "南开", txt "中大", txt "西工大", txt "华师大"]

def schoolRanks_tier2A : List Text :=
  [txt "中南大学", txt "电子科技大学", txt "重庆大学", txt "大连理工大学", txt "吉林大学",
   txt "厦门大学", txt "山东大学", txt "华南理工大学", txt "湖南大学", txt "东北大学",
   txt "兰州大学", txt "中国农业大学", txt "中国海洋大学", txt "西北农林科技大学",
   txt "北京邮电大学", txt "华东理工大学", txt "西安电子科技大学", txt "北京科技大学",
   txt "上海财经大学", txt "对外经济贸易大学", txt "中央财经大学",
   txt "海大", txt "中海大", txt "山大", txt "华南理工", txt "湖大", txt "东北大学"]

def schoolRanks_tier2B : List Text :=
  [txt "北京交通大学", txt "北京工业大学", txt "北京化工大学", txt "中国石油大学", txt "中国地质大学",
   txt "中国矿业大学", txt "河海大学", txt "江南大学", txt "南京理工大学", txt "南京航空航天大学",
   txt "安徽大学", txt "合肥工业大学", txt "福州大学", txt "南昌大学", txt "郑州大学"]

def schoolRanks_tier3 : List Text :=
  [txt "西湖大学", txt "上海科技大学", txt "深圳大学", txt "苏州大学",
   txt "杭州电子科技大学", txt "宁波大学", txt "江苏科技大学", txt "南京信息工程大学"]

def programmingKeywords : List Text :=
  [txt "Java", txt "Python", txt "JavaScript", txt "C++", txt "C#", txt "Go", txt "Rust",
   txt "Swift", txt "Kotlin",
   txt "React", txt "Vue", txt "Angular", txt "Node.js", txt "Spring", txt "Django",
   txt "Flask", txt "Express",
   txt "前端", txt "后端", txt "全栈", txt "编程", txt "开发", txt "程序设计", txt "HTML",
   txt "CSS", txt "PHP",
   txt "TypeScript", txt "jQuery", txt "Bootstrap", txt "Webpack", txt "Git", txt "Linux",
   txt "Docker"]

def designKeywords : List Text :=
  [txt "Photoshop", txt "Illustrator", txt "Sketch", txt "Figma", txt "XD", txt "Axure",
   txt "Principle",
   txt "UI", txt "UX", txt "平面设计", txt "交互设计", txt "视觉设计", txt "用户体验",
   txt "用户界面",
   txt "界面设计", txt "原型设计", txt "设计思维", txt "Premiere", txt "After Effects",
   txt "Cinema 4D"]

def dataKeywords : List Text :=
  [txt "SQL", txt "MySQL", txt "MongoDB", txt "PostgreSQL", txt "Oracle", txt "Excel",
   txt "Tableau",
   txt "SPSS", txt "R语言", txt "MATLAB", txt "Power BI", txt "Spark", txt "Hadoop", txt "Hive",
   txt "数据分析", txt "数据挖掘", txt "数据可视化", txt "机器学习", txt "深度学习",
   txt "人工智能",
   txt "TensorFlow", txt "PyTorch", txt "统计分析", txt "数据库", txt "大数据"]

def engineeringKeywords : List Text :=
  [txt "CAD", txt "AutoCAD", txt "SolidWorks", txt "Pro/E", txt "UG", txt "CATIA",
   txt "Inventor",
   txt "ANSYS", txt "ABAQUS", txt "COMSOL", txt "有限元", txt "仿真", txt "建模", txt "测试",
   txt "实验设计",
   txt "LabVIEW", txt "Altium Designer", txt "Keil", txt "Quartus", txt "Vivado", txt "FPGA"]

def artsKeywords : List Text :=
  [txt "钢琴", txt "吉他", txt "小提琴", txt "舞蹈", txt "唱歌", txt "绘画", txt "书法",
   txt "摄影", txt "视频制作",
   txt "篮球", txt "足球", txt "乒乓球", txt "羽毛球", txt "游泳", txt "跑步", txt "健身",
   txt "瑜伽",
   txt "演讲", txt "主持", txt "辩论", txt "表演", txt "相声", txt "话剧", txt "朗诵",
   txt "配音",
   txt "文学创作", txt "诗歌", txt "小说", txt "散文", txt "新闻写作", txt "编剧", txt "导演",
   txt "乐器演奏", txt "声乐", txt "作曲", txt "编曲", txt "音乐制作", txt "音响师"]

/-! ### Basic info analysis (`analyzeBasicInfo` with `aiExtraction = null`) -/

/-- Regex `/姓名[：:]\s*([^\s\n]{2,4})/`: the literal `姓名`, one of the two
colons, a maximal whitespace run, then at least two non-whitespace
characters (the lazy/greedy split is forced because `[^\s\n]` and `\s` are
disjoint). -/
def namePattern1 (s : Text) : Bool :=
  s.tails.any fun tl =>
    match tl with
    | '姓' :: '名' :: c :: rest =>
      (c = '：' || c = ':') &&
      (match rest.dropWhile isJsWs with
       | a :: b :: _ => !isJsWs a && !isJsWs b
       | _ => false)
    | _ => false

/-- Regex `/^([^\s\n]{2,4})$/m`: some whole line consists of 2 to 4
non-whitespace characters.  The `m`-flag anchors `^`/`$` break at every
ECMAScript LineTerminator: `\n`, `\r`, U+2028 and U+2029. -/
def nameLinePattern (s : Text) : Bool :=
  (splitOnChars ['\n', '\r', '\u2028', '\u2029'] s).any fun line =>
    2 ≤ jsLength line && jsLength line ≤ 4 && line.all (fun c => !isJsWs c)

def hasName (text : Text) : Bool :=
  namePattern1 text || nameLinePattern text ||
  containsAny [txt "个人简历", txt "简历"] text || decide (jsLength text > 50)

/-- Regex `/1[3-9]\d{9}/` at the head of a suffix. -/
def isPhoneAt : Text → Bool
  | '1' :: c :: rest =>
    ('3' ≤ c && c ≤ '9') && ((rest.take 9).length = 9 && (rest.take 9).all Char.isDigit)
  | _ => false

def testPhone (s : Text) : Bool := s.tails.any isPhoneAt

/-- JavaScript `\w`. -/
def isWordChar (c : Char) : Bool := c.isAlpha || c.isDigit || c = '_'

/-- `[A-Za-z0-9._%+-]`. -/
def isLocalChar (c : Char) : Bool := c.isAlpha || c.isDigit || c ∈ ['.', '_', '%', '+', '-']

/-- `[A-Za-z0-9.-]`. -/
def isDomChar (c : Char) : Bool := c.isAlpha || c.isDigit || c ∈ ['.', '-']

/-- `[A-Z|a-z]` — note the source's class literally contains `|`. -/
def isTldChar (c : Char) : Bool := c.isAlpha || c = '|'

/-- `\b` between an optional previous character and a next character:
exactly one side is a word character (start of string counts as
non-word). -/
def emailBoundaryOk (prev : Option Char) (first : Char) : Bool :=
  match prev with
  | none => isWordChar first
  | some p => isWordChar p != isWordChar first

/-- Trailing `\b` after the consumed TLD characters. -/
def emailTailOk (consumed rest : Text) : Bool :=
  match consumed.getLast?, rest.head? with
  | some lc, some nc => isWordChar lc != isWordChar nc
  | some lc, none => isWordChar lc
  | none, _ => false

/-- `[A-Za-z0-9.-]+\.[A-Z|a-z]{2,}\b` with full backtracking (the dot is in
the domain class, so the split point is existentially quantified). -/
def emailDomainOk (rest : Text) : Bool :=
  (List.range (rest.length + 1)).any fun k =>
    1 ≤ k && (rest.take k).length = k && (rest.take k).all isDomChar &&
    (match rest.drop k with
     | '.' :: tl =>
       (List.range (tl.length + 1)).any fun j =>
         2 ≤ j && (tl.take j).length = j && (tl.take j).all isTldChar &&
         emailTailOk (tl.take j) (tl.drop j)
     | _ => false)

/-- `[A-Za-z0-9._%+-]+@` then the domain part; the local run is forced to be
maximal because `@` is not in the local class. -/
def emailFromOk (l : Text) : Bool :=
  let loc := l.takeWhile isLocalChar
  if loc.length = 0 then false
  else
    match l.drop loc.length with
    | '@' :: rest => emailDomainOk rest
    | _ => false

def emailScan : Option Char → Text → Bool
  | _, [] => false
  | prev, c :: cs => (emailBoundaryOk prev c && emailFromOk (c :: cs)) || emailScan (some c) cs

/-- Test of `/\b[A-Za-z0-9._%+-]+@[A-Za-z0-9.-]+\.[A-Z|a-z]{2,}\b/`. -/
def testEmail (s : Text) : Bool := emailScan none s

/-- Third alternative of `/(出生|生日|\d{4}年\d{1,2}月)/`. -/
def birthdayNumPattern (s : Text) : Bool :=
  s.tails.any fun tl =>
    match tl with
    | a :: b :: c :: d :: '年' :: e :: rest =>
      a.isDigit && b.isDigit && c.isDigit && d.isDigit && e.isDigit &&
      (match rest with
       | '月' :: _ => true
       | f :: '月' :: _ => f.isDigit
       | _ => false)
    | _ => false

structure BasicInfo where
  name : Bool := false
  phone : Bool := false
  email : Bool := false
  address : Bool := false
  intention : Bool := false
  website : Bool := false
  social : Bool := false
  birthday : Bool := false
  political : Bool := false
  count : ℕ := 0
deriving Repr, DecidableEq

/-- One step of the name/phone/email/address blocks of `analyzeBasicInfo`:
`if (detected) { info.x = info.x || true; if (!info.x) count++; }` — note
the count check reads the flag AFTER it has been set to `true`, so the
increment can never fire. -/
def biStep (detected flag : Bool) (count : ℕ) : Bool × ℕ :=
  if detected then
    let flag := flag || true
    (flag, if flag = false then count + 1 else count)
  else (flag, count)

/-- `analyzeBasicInfo(text, null)`: the AI branch contributes nothing, so
every flag starts unset.  The first four blocks go through `biStep` (whose
count increment is dead); each of the remaining five sets its flag to the
test result and increments `count` when it fires.  The final `count` is
`Math.min(count, 9)`. -/
def analyzeBasicInfo (text : Text) : BasicInfo :=
  let textL := lowerT text
  let name := biStep (hasName text) false 0
  let phone := biStep (testPhone text) false name.2
  let email := biStep (testEmail text) false phone.2
  let address := biStep
    (containsAny [txt "市", txt "省", txt "区", txt "县", txt "路", txt "街", txt "号",
                  txt "意向", txt "求职"] text) false email.2
  let intention := containsAny [txt "求职", txt "应聘", txt "岗位", txt "职位", txt "意向"] text
  let c5 := if intention then address.2 + 1 else address.2
  let website :=
    containsAny [txt "github", txt "gitlab", txt "个人网站", txt "博客", txt "portfolio"] textL
  let c6 := if website then c5 + 1 else c5
  let social := containsAny [txt "linkedin", txt "微博", txt "知乎"] textL
  let c7 := if social then c6 + 1 else c6
  let birthday := containsAny [txt "出生", txt "生日"] text || birthdayNumPattern text
  let c8 := if birthday then c7 + 1 else c7
  let political := containsAny [txt "党员", txt "团员", txt "群众", txt "政治面貌"] text
  let c9 := if political then c8 + 1 else c8
  { name := name.1, phone := phone.1, email := email.1, address := address.1,
    intention := intention, website := website, social := social,
    birthday := birthday, political := political,
    count := min c9 9 }

/-! ### Skills analysis (`analyzeSkills` with `aiExtraction = null`) -/

/-- `s.replace(/[\s\-_.]/g, '')`. -/
def fuzzyClean (s : Text) : Text := s.filter (fun c => !(isJsWs c || c ∈ ['-', '_', '.']))

/-- `fuzzyMatch(text, keyword)` from the source (both arguments are already
lowercase at every call site). -/
def fuzzyMatch (textL kw : Text) : Bool :=
  let cleanText := fuzzyClean textL
  let cleanKeyword := fuzzyClean kw
  containsSub cleanKeyword cleanText || containsSub cleanText cleanKeyword

/-- The per-keyword test of the traditional branch of `analyzeSkills`:
`textLower.includes(skillLower) || textLower.includes(skillLower.replace(/[.\s]/g, ''))
 || this.fuzzyMatch(textLower, skillLower)`. -/
def skillHit (textL kw : Text) : Bool :=
  let kwL := lowerT kw
  containsSub kwL textL ||
  containsSub (kwL.filter (fun c => !(c = '.' || isJsWs c))) textL ||
  fuzzyMatch textL kwL

structure Skills where
  programming : List Text
  design : List Text
  data : List Text
  engineering : List Text
  arts : List Text
  total : ℕ
deriving Repr, DecidableEq

/-- `analyzeSkills(text, null)`: the keyword loop runs only under the
`if (text && typeof text === 'string')` guard — a falsy (empty) string
skips it and every bucket stays empty; otherwise each bucket collects the
distinct keywords of its list that match; `total` sums the five bucket
sizes (the `total: 0` placeholder contributes nothing to the `reduce`). -/
def analyzeSkills (text : Text) : Skills :=
  if text.isEmpty then
    { programming := [], design := [], data := [], engineering := [], arts := [],
      total := 0 }
  else
    let textL := lowerT text
    let programming := programmingKeywords.filter (skillHit textL)
    let design := designKeywords.filter (skillHit textL)
    let data := dataKeywords.filter (skillHit textL)
    let engineering := engineeringKeywords.filter (skillHit textL)
    let arts := artsKeywords.filter (skillHit textL)
    { programming := programming, design := design, data := data,
      engineering := engineering, arts := arts,
      total := programming.length + design.length + data.length +
               engineering.length + arts.length }

/-! ### Education analysis -/

inductive DegreeLevel where
  | phd
  | master
  | bachelor
  | unknown
deriving Repr, DecidableEq, BEq

/-- One element of the `degrees` array built by `extractDegrees` (the
AI-only `major`/`aiExtracted` fields are omitted; they are never read in
the `aiExtraction = null` configuration). -/
structure DegreeRec where
  school : Text
  degree : DegreeLevel
  srcText : Text
deriving Repr, DecidableEq, BEq

/-- `getDegreeLevel` (case-insensitive tests). -/
def getDegreeLevel (s : Text) : DegreeLevel :=
  let l := lowerT s
  if containsAny [txt "博士", txt "phd", txt "doctor"] l then .phd
  else if containsAny [txt "硕士", txt "研究生", txt "master"] l then .master
  else if containsAny [txt "本科", txt "学士", txt "bachelor"] l then .bachelor
  else .unknown

def cleanKws : List Text := [txt "大学", txt "学院", txt "科技", txt "理工"]

/-- The replacement `.replace(/(大学|学院|科技|理工).*/, '$1')`: at the first
occurrence of one of the keywords, the match swallows the keyword and the
rest of the line (`.` does not cross a newline) and is replaced by the
keyword alone. -/
def truncAfterKw : Text → Text
  | [] => []
  | c :: cs =>
    match cleanKws.find? (fun k => k.isPrefixOf (c :: cs)) with
    | some k => k ++ (cs.drop (k.length - 1)).dropWhile (fun c => c ≠ '\n')
    | none => c :: truncAfterKw cs

/-- `String.prototype.trim` (strips JavaScript whitespace at both ends). -/
def jsTrim (s : Text) : Text := ((s.dropWhile isJsWs).reverse.dropWhile isJsWs).reverse

/-- `cleanSchoolName`: truncate after the first 大学/学院/科技/理工, strip a
leading whitespace run (`.replace(/^\s*/, '')`), then `trim()`. -/
def cleanSchoolName (s : Text) : Text :=
  if s.isEmpty then []
  else jsTrim ((truncAfterKw s).dropWhile isJsWs)

def schoolKws : List Text := [txt "大学", txt "学院", txt "学校"]
def degreeKws1 : List Text := [txt "本科", txt "硕士", txt "博士", txt "学士", txt "研究生"]
def degreeKws2 : List Text :=
  [txt "研究生", txt "硕士", txt "博士", txt "master", txt "phd", txt "doctor"]

/-- Does the segment contain a school keyword followed (disjointly, in any
later position) by a degree keyword?  This is exactly when the lazy pattern
`[^。\n]*?(?:school)[^。\n]*?(?:degree)[^。\n]*` matches inside a segment
free of `。` and `\n`: the engine backtracks over all school occurrences,
and a degree occurrence after a later school occurrence is also after an
earlier one. -/
def kwThenKw (ks1 ks2 : List Text) : Text → Bool
  | [] => false
  | c :: cs =>
    (match ks1.find? (fun k => k.isPrefixOf (c :: cs)) with
     | some k => containsAny ks2 (cs.drop (k.length - 1))
     | none => false)
    || kwThenKw ks1 ks2 cs

/-- The maximal `。`/`\n`-free segments of the text.  Every part of the
degree patterns 1 and 2 except the keywords is `[^。\n]`, so a match is
confined to one segment, starts where the engine first reaches the segment
and its trailing greedy `[^。\n]*` extends to the segment's end: each
qualifying segment yields exactly one match, which spans the whole
segment. -/
def eduSegments (text : Text) : List Text := splitOnChars ['。', '\n'] text

def yearSepChar (c : Char) : Bool := c ∈ ['年', '-', '.']

/-- `(20\d{2}[年\-\.]*20\d{2}|20\d{2}[年\-\.]*)` at the head of the suffix:
the first alternative is tried first; the greedy separator run cannot
backtrack because `2` is not a separator. Returns the match length. -/
def yearAt : Text → Option ℕ
  | '2' :: '0' :: a :: b :: rest =>
    if a.isDigit && b.isDigit then
      let sep := rest.takeWhile yearSepChar
      match rest.drop sep.length with
      | '2' :: '0' :: c2 :: d2 :: _ =>
        if c2.isDigit && d2.isDigit then some (4 + sep.length + 4)
        else some (4 + sep.length)
      | _ => some (4 + sep.length)
    else none
  | _ => none

/-- Group 2 of pattern 3, `[^。\n]*?(?:大学|学院)[^。\n]*?(?:本科|研究生|硕士|博士)`,
matched at the head of `l`; returns the match length.  Both lazy runs stay
inside the `。`/`\n`-free run; the earliest school occurrence suffices (a
degree occurrence after a later school is after the earliest too). -/
def g2At (l : Text) : Option ℕ :=
  let run := l.takeWhile (fun c => c ≠ '。' && c ≠ '\n')
  match findAltIdx [txt "大学", txt "学院"] run with
  | some sl =>
    match findAltIdx [txt "本科", txt "研究生", txt "硕士", txt "博士"] (run.drop (sl.1 + sl.2)) with
    | some dl => some (sl.1 + sl.2 + dl.1 + dl.2)
    | none => none
  | none => none

/-- The lazy `.*?` between the year group and group 2: find the earliest
start where group 2 matches; `.` cannot cross a newline. -/
def scanG2 : Text → Option (ℕ × ℕ)
  | [] => none
  | c :: cs =>
    match g2At (c :: cs) with
    | some e => some (0, e)
    | none =>
      if c = '\n' then none
      else (scanG2 cs).map (fun qe => (qe.1 + 1, qe.2))

/-- The global `exec` loop of degree pattern 3
`/(20\d{2}[年\-\.]*20\d{2}|20\d{2}[年\-\.]*).*?([^。\n]*?(?:大学|学院)[^。\n]*?(?:本科|研究生|硕士|博士))/gi`:
`match[1]` is the year text (so the pushed `school` is
`cleanSchoolName(yearText)`), `match[2]` is group 2 (so the pushed `degree`
is `getDegreeLevel(g2Text)`); on failure the scan advances one character,
on success it resumes after the match. -/
def p3ScanAux : ℕ → Text → List DegreeRec
  | _, [] => []
  | 0, _ :: _ => []
  | fuel + 1, c :: cs =>
    match yearAt (c :: cs) with
    | some ylen =>
      match scanG2 (cs.drop (ylen - 1)) with
      | some qe =>
        let yearTxt := (c :: cs).take ylen
        let g2Txt := ((cs.drop (ylen - 1)).drop qe.1).take qe.2
        let matchTxt := (c :: cs).take (ylen + qe.1 + qe.2)
        ⟨cleanSchoolName yearTxt, getDegreeLevel g2Txt, matchTxt⟩ ::
          p3ScanAux fuel ((cs.drop (ylen - 1)).drop (qe.1 + qe.2))
      | none => p3ScanAux fuel cs
    | none => p3ScanAux fuel cs

/-- Fuel = length runs the scan to completion, as in `countAlts`. -/
def p3Scan (s : Text) : List DegreeRec := p3ScanAux s.length s

/-- The final dedup of `extractDegrees`: keep the first record of each
(school, degree) pair. -/
def dedupDegrees (l : List DegreeRec) : List DegreeRec :=
  l.foldl (fun acc d =>
    if acc.any (fun e => e.school == d.school && e.degree == d.degree) then acc
    else acc ++ [d]) []

/-- `extractDegrees(text, null)`: patterns 1 and 2 contribute one record per
qualifying segment, with `degree = getDegreeLevel(match[2] || match[3] || '')`
where both groups are `undefined` (the patterns have a single capture
group), hence always `unknown`; pattern 3 contributes via `p3Scan`. -/
def extractDegrees (text : Text) : List DegreeRec :=
  let segs := eduSegments text
  let d1 := segs.filterMap (fun seg =>
    if kwThenKw schoolKws degreeKws1 (lowerT seg) then
      some ⟨cleanSchoolName seg, getDegreeLevel [], seg⟩
    else none)
  let d2 := segs.filterMap (fun seg =>
    if kwThenKw schoolKws degreeKws2 (lowerT seg) then
      some ⟨cleanSchoolName seg, getDegreeLevel [], seg⟩
    else none)
  let d3 := p3Scan text
  dedupDegrees (d1 ++ d2 ++ d3)

/-- `s.replace(/suf$/, '')`: strip one trailing occurrence. -/
def stripSuffixKw (suf s : Text) : Text :=
  if suf.isSuffixOf s then s.take (s.length - suf.length) else s

/-- `name.replace(/[大学院科技理工]/g, '')`. -/
def simpleSchool (s : Text) : Text :=
  s.filter (fun c => c ∉ ['大', '学', '院', '科', '技', '理', '工'])

/-- `matchSchoolName`. -/
def matchSchoolName (n1 n2 : Text) : Bool :=
  if n1.isEmpty || n2.isEmpty then false
  else if containsSub n2 n1 || containsSub n1 n2 then true
  else
    let s1 := simpleSchool n1
    let s2 := simpleSchool n2
    2 ≤ jsLength s1 && 2 ≤ jsLength s2 && (containsSub s2 s1 || containsSub s1 s2)

/-- The `normalizedName` of `getSchoolRankScore`: strip the suffixes
大学, 学院, 科技, 理工 in that order. -/
def normalizeSchoolName (s : Text) : Text :=
  stripSuffixKw (txt "理工") (stripSuffixKw (txt "科技")
    (stripSuffixKw (txt "学院") (stripSuffixKw (txt "大学") s)))

/-- One tier test of `getSchoolRankScore`. -/
def tierHit (tier : List Text) (schoolName normalized : Text) : Bool :=
  tier.any (fun school =>
    matchSchoolName schoolName school ||
    matchSchoolName normalized (stripSuffixKw (txt "学院") (stripSuffixKw (txt "大学") school)))

/-- `getSchoolRankScore`. -/
def getSchoolRankScore (schoolName : Text) : ℤ :=
  if schoolName.isEmpty then 2
  else
    let normalized := normalizeSchoolName schoolName
    if tierHit schoolRanks_topTier schoolName normalized then 15
    else if tierHit schoolRanks_tier1A schoolName normalized then 13
    else if tierHit schoolRanks_tier1B schoolName normalized then 11
    else if tierHit schoolRanks_tier2A schoolName normalized then 9
    else if tierHit schoolRanks_tier2B schoolName normalized then 7
    else if tierHit schoolRanks_tier3 schoolName normalized then 5
    else if containsAny [txt "大学", txt "学院"] schoolName then
      (if containsAny [txt "985", txt "211", txt "双一流", txt "重点"] schoolName then 6 else 3)
    else if containsAny [txt "专科", txt "高职"] schoolName then 1
    else 2

/-- `getBasicSchoolScore`. -/
def getBasicSchoolScore (text : Text) : ℤ :=
  if containsAny [txt "清华", txt "北大"] text then 15
  else if containsAny [txt "复旦", txt "交大", txt "浙大", txt "中科大", txt "南大"] text then 13
  else if containsSub (txt "985") text then 11
  else if containsAny [txt "211", txt "双一流"] text then 9
  else if containsSub (txt "重点大学") text then 7
  else if containsAny [txt "大学", txt "学院"] text then 3
  else if containsAny [txt "专科", txt "高职"] text then 1
  else 2

/-- The sort key `{'associate': 1, 'bachelor': 2, 'master': 3, 'phd': 4}`
with `order[...] || 0 = 0` for `'unknown'` (`associate` is unreachable:
`getDegreeLevel` never produces it). -/
def degreeOrder : DegreeLevel → ℕ
  | .bachelor => 2
  | .master => 3
  | .phd => 4
  | .unknown => 0

/-- Stable ascending insertion by `degreeOrder` (JavaScript `sort` is
stable; an element is inserted after all elements with a key ≤ its own). -/
def insertByOrder (d : DegreeRec) : List DegreeRec → List DegreeRec
  | [] => [d]
  | e :: es =>
    if degreeOrder d.degree < degreeOrder e.degree then d :: e :: es
    else e :: insertByOrder d es

def sortDegrees (l : List DegreeRec) : List DegreeRec :=
  l.foldl (fun acc d => insertByOrder d acc) []

/-- `calculateSchoolScore`. -/
def calculateSchoolScore (text : Text) (degrees : List DegreeRec) : ℤ :=
  match degrees with
  | [] => getBasicSchoolScore text
  | [d] => min (getSchoolRankScore d.school) 15
  | _ :: _ :: _ =>
    let sorted := sortDegrees degrees
    let first := sorted.headD ⟨[], .unknown, []⟩
    let highest := sorted.getLastD ⟨[], .unknown, []⟩
    let firstScore := getSchoolRankScore first.school
    let highestScore := getSchoolRankScore highest.school
    min (jsRound ((firstScore : ℚ) * (1/2) + (highestScore : ℚ) * (1/2))) 15

/-- `calculateDegreeScore`. -/
def calculateDegreeScore (degrees : List DegreeRec) : ℤ :=
  if degrees.isEmpty then 0
  else
    let maxDegreeScore : ℤ := degrees.foldl (fun m d =>
      match d.degree with
      | .phd => max m 5
      | .master => max m 3
      | .bachelor => max m 1
      | .unknown => m) 0
    let totalDegrees : ℕ := (degrees.filter (fun d => d.degree != DegreeLevel.unknown)).length
    let multiDegreeBonus : ℤ := if totalDegrees > 1 then (totalDegrees : ℤ) - 1 else 0
    min (maxDegreeScore + multiDegreeBonus) 5

/-- The capture search shared by the three `extractGPA` regexes
`/kw[：:\s]*([0-9.]+)/`: at each occurrence of the keyword, skip the maximal
run of colons/whitespace; a nonempty `[0-9.]` run there is the capture,
otherwise the scan continues with later occurrences. -/
def kwNumCapture (kw : Text) : Text → Option Text
  | [] => none
  | c :: cs =>
    if kw.isPrefixOf (c :: cs) then
      let body := (cs.drop (kw.length - 1)).dropWhile (fun d => d = '：' || d = ':' || isJsWs d)
      let num := body.takeWhile (fun d => d.isDigit || d = '.')
      if num.isEmpty then kwNumCapture kw cs else some num
    else kwNumCapture kw cs

/-- `extractGPA`: the three patterns are tried in order (the GPA one is
case-insensitive); no match at all gives `0`; a capture that `parseFloat`s
to `NaN` propagates (`none`) because both rescale comparisons are false and
the raw value is returned. -/
def extractGPA (text : Text) : Option ℚ :=
  match (kwNumCapture (txt "gpa") (lowerT text)).orElse
        (fun _ => (kwNumCapture (txt "绩点") text).orElse
        (fun _ => kwNumCapture (txt "平均分") text)) with
  | some num =>
    match jsParseFloat num with
    | some g => if 5 < g then some (g / 25) else if 4 < g then some (g * (0.8 : ℚ)) else some g
    | none => none
  | none => some 0

structure EducationAnalysis where
  schoolLevel : ℤ
  hasGPA : Bool
  gpa : Option ℚ
  degrees : List DegreeRec
  degreeScore : ℤ
deriving Repr, DecidableEq

/-- `analyzeEducation(text, null)`. -/
def analyzeEducation (text : Text) : EducationAnalysis :=
  let degrees := extractDegrees text
  { schoolLevel := calculateSchoolScore text degrees
    hasGPA := containsAny [txt "GPA", txt "绩点", txt "平均分", txt "成绩"] text
    gpa := extractGPA text
    degrees := degrees
    degreeScore := calculateDegreeScore degrees }

/-! ### Experience analysis -/

/-- Alternatives of `/实习|intern/gi` (on lowercased text). -/
def internAlts : List Text := [txt "实习", txt "intern"]

/-- Key/completion pairs of `/(公司|企业|集团|科技|有限).*?(实习|intern)/gi`. -/
def internPairs : List (Text × List Text) :=
  [(txt "公司", internAlts), (txt "企业", internAlts), (txt "集团", internAlts),
   (txt "科技", internAlts), (txt "有限", internAlts)]

/-- Alternatives of `/项目|project/gi`. -/
def projectAlts : List Text := [txt "项目", txt "project"]

def projectTargets : List Text := [txt "项目", txt "系统", txt "网站", txt "app"]

/-- Key/completion pairs of `/(开发|设计|完成|负责).*?(项目|系统|网站|APP)/gi`. -/
def projectPairs : List (Text × List Text) :=
  [(txt "开发", projectTargets), (txt "设计", projectTargets),
   (txt "完成", projectTargets), (txt "负责", projectTargets)]

/-- Literals of the company-name test
`/(有限公司|股份|集团|科技|互联网|腾讯|阿里|百度|字节|美团|京东|华为|小米|网易|滴滴|快手)/i`. -/
def companyLits : List Text :=
  [txt "有限公司", txt "股份", txt "集团", txt "科技", txt "互联网", txt "腾讯", txt "阿里",
   txt "百度", txt "字节", txt "美团", txt "京东", txt "华为", txt "小米", txt "网易",
   txt "滴滴", txt "快手"]

/-- Literals of the achievement-verb test
`/(完成|实现|提升|优化|负责|开发|设计|获得|达到)/i`. -/
def achievementVerbs : List Text :=
  [txt "完成", txt "实现", txt "提升", txt "优化", txt "负责", txt "开发", txt "设计",
   txt "获得", txt "达到"]

/-- `countPapers` / `calculateAcademicScore` pattern pieces.  The JCR regex
`/(JCR.*?[一1]区|影响因子.*?[5-9])/gi` is a lazy-completion pair scan. -/
def jcrPairs : List (Text × List Text) :=
  [(txt "jcr", [txt "一区", txt "1区"]),
   (txt "影响因子", [txt "5", txt "6", txt "7", txt "8", txt "9"])]

/-- `calculateAcademicScore` (all five regexes are global and
case-insensitive, hence counted on the lowercased text). -/
def calculateAcademicScore (text : Text) : ℤ :=
  let tl := lowerT text
  let score : ℤ :=
    (countAlts [txt "nature", txt "science"] tl : ℤ) * 5 +
    (countLazy jcrPairs tl : ℤ) * 4 +
    (countAlts [txt "sci"] tl : ℤ) * 3 +
    (countAlts [txt "ei"] tl : ℤ) * 2 +
    (countAlts [txt "核心期刊", txt "中文期刊"] tl : ℤ) * 1
  min score 15

/-- `countPapers`: the same five pattern groups, total number of matches. -/
def countPapers (text : Text) : ℕ :=
  let tl := lowerT text
  countAlts [txt "nature", txt "science"] tl +
  countLazy jcrPairs tl +
  countAlts [txt "sci"] tl +
  countAlts [txt "ei"] tl +
  countAlts [txt "核心期刊", txt "中文期刊"] tl

structure ExperienceAnalysis where
  internshipCount : ℕ
  projectCount : ℕ
  hasCompanyName : Bool
  hasAchievement : Bool
  internshipScore : ℚ
  projectScore : ℚ
  academicScore : ℚ
  internshipExtraScore : ℚ
  projectExtraScore : ℚ
  academicExtraScore : ℚ
deriving Repr, DecidableEq

/-- `analyzeExperience(text, null)` (the AI refinement block is skipped). -/
def analyzeExperience (text : Text) : ExperienceAnalysis :=
  let tl := lowerT text
  let internshipCount := max (countAlts internAlts tl) (countLazy internPairs tl)
  let projectCount := max (countAlts projectAlts tl) (countLazy projectPairs tl)
  let hasCompanyName := containsAny companyLits tl
  let hasAchievement := containsAny achievementVerbs tl
  let internRaw : ℚ := (internshipCount : ℚ) * (if hasCompanyName then 3 else 2.5)
  let projectRaw : ℚ := (projectCount : ℚ) * (if hasAchievement then 3 else 2.5)
  let academic : ℚ := (calculateAcademicScore text : ℚ)
  { internshipCount := internshipCount
    projectCount := projectCount
    hasCompanyName := hasCompanyName
    hasAchievement := hasAchievement
    internshipScore := min internRaw 10
    projectScore := min projectRaw 10
    academicScore := min academic 10
    internshipExtraScore := max 0 (internRaw - 10)
    projectExtraScore := max 0 (projectRaw - 10)
    academicExtraScore := max 0 (academic - 10) }

/-! ### Achievements analysis -/

/-- The `details` object of the achievements analysis.  Absent keys are 0
(JavaScript `undefined` is falsy and contributes nothing to the sums). -/
structure AchDetails where
  chairman : ℕ := 0
  minister : ℕ := 0
  member : ℕ := 0
  nationalHonor : ℕ := 0
  provincialHonor : ℕ := 0
  schoolHonor : ℕ := 0
  collegeHonor : ℕ := 0
  internationalComp : ℕ := 0
  nationalComp : ℕ := 0
  provincialComp : ℕ := 0
  schoolComp : ℕ := 0
  advancedCert : ℕ := 0
  generalCert : ℕ := 0
deriving Repr, DecidableEq

/-- The `extraScore` object (absent keys are 0; in this source variant all
achievement raw scores are integers). -/
structure AchExtra where
  leadership : ℤ := 0
  honor : ℤ := 0
  competition : ℤ := 0
  certificate : ℤ := 0
deriving Repr, DecidableEq

structure AchievementsAnalysis where
  totalScore : ℤ
  details : AchDetails
  extraScore : AchExtra
deriving Repr, DecidableEq

def chairmanKeys : List Text := [txt "学生会", txt "社团", txt "协会", txt "俱乐部"]
def chairmanTitles : List Text := [txt "主席", txt "会长", txt "社长"]

/-- `traditionalAchievementAnalysis` of `resume-parser.js`: only the
student-chairman block is implemented — the remaining detection logic is
elided in the source (`// ... 其他传统逻辑`), so `details` gains at most a
`chairman` entry and `extraScore` stays empty.  `chairmanCount` sums the
match counts of the two overlapping patterns
`/(学生会|社团|协会|俱乐部).{0,10}(主席|会长|社长)/gi` and
`/(主席|会长|社长)/gi`. -/
def traditionalAchievementAnalysis (text : Text) : AchievementsAnalysis :=
  let tl := lowerT text
  let chairmanCount := countGreedyPair chairmanKeys chairmanTitles 10 tl +
    countAlts chairmanTitles tl
  let details : AchDetails := if chairmanCount > 0 then { chairman := chairmanCount } else {}
  let totalScore : ℤ :=
    if chairmanCount > 0 then min ((chairmanCount : ℤ) * 3) 5 else 0
  { totalScore := min totalScore 15
    details := details
    extraScore := {} }

/-- `analyzeAchievements(text, null)`: with no AI extraction the `details`
object stays empty, so the function falls back to
`traditionalAchievementAnalysis`. -/
def analyzeAchievements (text : Text) : AchievementsAnalysis :=
  traditionalAchievementAnalysis text

/-! ### Full analysis (`analyzeResume`) -/

/-- `hasGoodStructure`. -/
def hasGoodStructure (text : Text) : Bool :=
  3 ≤ ([txt "教育", txt "经历", txt "技能", txt "项目", txt "实习", txt "工作", txt "学习",
        txt "经验"].filter (fun s => containsSub s text)).length

structure Analysis where
  originalText : Text
  basicInfo : BasicInfo
  education : EducationAnalysis
  skills : Skills
  experience : ExperienceAnalysis
  achievements : AchievementsAnalysis
  wordCount : ℕ
  hasStructure : Bool
  aiEnhanced : Bool
  aiConfidence : ℚ
deriving Repr, DecidableEq

/-- `analyzeResume(text)` with the AI keyword extractor unavailable. -/
def analyzeResume (text : Text) : Analysis :=
  { originalText := text
    basicInfo := analyzeBasicInfo text
    education := analyzeEducation text
    skills := analyzeSkills text
    experience := analyzeExperience text
    achievements := analyzeAchievements text
    wordCount := jsLength text
    hasStructure := hasGoodStructure text
    aiEnhanced := false
    aiConfidence := 0 }

/-! ### Detailed scorers and specialization detection -/

/-- JavaScript `Math.floor` on an exactly-represented value. -/
def jsFloor (q : ℚ) : ℤ := Rat.floor q

structure BasicInfoScore where
  total : ℤ
  details : BasicInfo
  maxScore : ℤ
deriving Repr, DecidableEq

/-- `scoreBasicInfoDetailed`. -/
def scoreBasicInfoDetailed (analysis : Analysis) : BasicInfoScore :=
  { total := min ((analysis.basicInfo.count : ℤ) * 2) maxScores_basicInfo
    details := analysis.basicInfo
    maxScore := maxScores_basicInfo }

structure EduDetails where
  school : ℤ
  academic : ℤ
  degree : ℤ
deriving Repr, DecidableEq

/-- The education category score (the constant `maxScores` metadata object
of the source is omitted). -/
structure EducationScore where
  total : ℤ
  details : EduDetails
deriving Repr, DecidableEq

/-- `scoreEducationDetailed`: school clamped at 15, the GPA band, and the
degree score, summed without a cap. -/
def scoreEducationDetailed (analysis : Analysis) : EducationScore :=
  let school := min analysis.education.schoolLevel 15
  let academic : ℤ :=
    if qGe analysis.education.gpa 3.7 then 5
    else if qGe analysis.education.gpa 3.3 then 4
    else if qGe analysis.education.gpa 2.7 then 3
    else if qGe analysis.education.gpa 2 then 2
    else if analysis.education.hasGPA then 1
    else 0
  let degree := analysis.education.degreeScore
  { total := school + academic + degree
    details := { school := school, academic := academic, degree := degree } }

structure SkillsDetails where
  programming : ℤ
  design : ℤ
  data : ℤ
  engineering : ℤ
  arts : ℤ
deriving Repr, DecidableEq

structure SkillsScore where
  total : ℤ
  details : SkillsDetails
deriving Repr, DecidableEq

/-- `scoreSkillsDetailed`: each bucket clamped at 4, total clamped at 20. -/
def scoreSkillsDetailed (analysis : Analysis) : SkillsScore :=
  let p := min (analysis.skills.programming.length : ℤ) 4
  let d := min (analysis.skills.design.length : ℤ) 4
  let dt := min (analysis.skills.data.length : ℤ) 4
  let e := min (analysis.skills.engineering.length : ℤ) 4
  let a := min (analysis.skills.arts.length : ℤ) 4
  { total := min (p + d + dt + e + a) maxScores_skills
    details := { programming := p, design := d, data := dt, engineering := e, arts := a } }

structure ExpDetails where
  internship : ℤ
  project : ℤ
  academic : ℤ
deriving Repr, DecidableEq

structure ExperienceScore where
  total : ℤ
  details : ExpDetails
deriving Repr, DecidableEq

/-- `scoreExperienceDetailed`: the three already-capped base scores are
rounded, and their sum clamped at 30. -/
def scoreExperienceDetailed (analysis : Analysis) : ExperienceScore :=
  let i := jsRound analysis.experience.internshipScore
  let p := jsRound analysis.experience.projectScore
  let a := jsRound analysis.experience.academicScore
  { total := min (i + p + a) maxScores_experience
    details := { internship := i, project := p, academic := a } }

structure AchScoreDetails where
  leadership : ℤ
  honor : ℤ
  competition : ℤ
  certificate : ℤ
deriving Repr, DecidableEq

structure AchievementsScore where
  total : ℤ
  details : AchScoreDetails
  extraScore : AchExtra
deriving Repr, DecidableEq

/-- `scoreAchievementsDetailed`: the `if (ach.details.x)` guards are
equivalent to unconditional sums because an absent key contributes 0. -/
def scoreAchievementsDetailed (analysis : Analysis) : AchievementsScore :=
  let d := analysis.achievements.details
  let leadership := min ((d.chairman : ℤ) * 3 + (d.minister : ℤ) * 2 + (d.member : ℤ) * 1) 5
  let honor := min ((d.nationalHonor : ℤ) * 4 + (d.provincialHonor : ℤ) * 3 +
                    (d.schoolHonor : ℤ) * 2 + (d.collegeHonor : ℤ) * 1) 5
  let competition := min ((d.internationalComp : ℤ) * 4 + (d.nationalComp : ℤ) * 3 +
                          (d.provincialComp : ℤ) * 2 + (d.schoolComp : ℤ) * 1) 5
  let certificate := min ((d.advancedCert : ℤ) * 2 + (d.generalCert : ℤ) * 1) 5
  { total := analysis.achievements.totalScore
    details := { leadership := leadership, honor := honor,
                 competition := competition, certificate := certificate }
    extraScore := analysis.achievements.extraScore }

structure CategoryScores where
  basicInfo : BasicInfoScore
  education : EducationScore
  skills : SkillsScore
  experience : ExperienceScore
  achievements : AchievementsScore
deriving Repr, DecidableEq

/-- `calculateScores`. -/
def calculateScores (analysis : Analysis) : CategoryScores :=
  { basicInfo := scoreBasicInfoDetailed analysis
    education := scoreEducationDetailed analysis
    skills := scoreSkillsDetailed analysis
    experience := scoreExperienceDetailed analysis
    achievements := scoreAchievementsDetailed analysis }

inductive SpecType where
  | programming
  | data
  | design
  | engineering
  | arts
  | internship
  | project
  | academic
  | achievement
deriving Repr, DecidableEq

inductive SpecCategory where
  | skill
  | experience
  | achievement
deriving Repr, DecidableEq

structure Specialization where
  type : SpecType
  category : SpecCategory
  level : ℤ
  bonus : ℤ
  description : String
deriving Repr, DecidableEq

/-- `detectSpecialization` of `resume-parser.js`: skill buckets trigger on
their thresholds with bonus `min(length - base, cap)`; experience
sub-dimensions and the summed achievement overflow use
`min(Math.floor(extra / 3), 5)` guarded by `extra > 0` and `bonus > 0`. -/
def detectSpecialization (analysis : Analysis) : List Specialization :=
  let skills := analysis.skills
  let experience := analysis.experience
  let achievements := analysis.achievements
  (if 5 ≤ skills.programming.length then
    [{ type := .programming, category := .skill, level := (skills.programming.length : ℤ),
       bonus := min ((skills.programming.length : ℤ) - 4) 5,
       description := "编程开发专精 (掌握" ++ toString skills.programming.length ++ "项技术)" }]
   else []) ++
  (if 4 ≤ skills.data.length then
    [{ type := .data, category := .skill, level := (skills.data.length : ℤ),
       bonus := min ((skills.data.length : ℤ) - 3) 4,
       description := "数据分析专精 (掌握" ++ toString skills.data.length ++ "项技术)" }]
   else []) ++
  (if 4 ≤ skills.design.length then
    [{ type := .design, category := .skill, level := (skills.design.length : ℤ),
       bonus := min ((skills.design.length : ℤ) - 3) 4,
       description := "设计创作专精 (掌握" ++ toString skills.design.length ++ "项技术)" }]
   else []) ++
  (if 4 ≤ skills.engineering.length then
    [{ type := .engineering, category := .skill, level := (skills.engineering.length : ℤ),
       bonus := min ((skills.engineering.length : ℤ) - 3) 4,
       description := "工程技术专精 (掌握" ++ toString skills.engineering.length ++ "项技术)" }]
   else []) ++
  (if 4 ≤ skills.arts.length then
    [{ type := .arts, category := .skill, level := (skills.arts.length : ℤ),
       bonus := min ((skills.arts.length : ℤ) - 3) 4,
       description := "文体艺术专精 (掌握" ++ toString skills.arts.length ++ "项技能)" }]
   else []) ++
  (if 0 < experience.internshipExtraScore then
    let bonus := min (jsFloor (experience.internshipExtraScore / 3)) 5
    if 0 < bonus then
      [{ type := .internship, category := .experience, level := (experience.internshipCount : ℤ),
         bonus := bonus,
         description := "实习专精 (" ++ toString experience.internshipCount ++ "次实习经历)" }]
    else []
   else []) ++
  (if 0 < experience.projectExtraScore then
    let bonus := min (jsFloor (experience.projectExtraScore / 3)) 5
    if 0 < bonus then
      [{ type := .project, category := .experience, level := (experience.projectCount : ℤ),
         bonus := bonus,
         description := "项目专精 (" ++ toString experience.projectCount ++ "个项目经验)" }]
    else []
   else []) ++
  (if 0 < experience.academicExtraScore then
    let bonus := min (jsFloor (experience.academicExtraScore / 3)) 5
    if 0 < bonus then
      [{ type := .academic, category := .experience,
         level := (countPapers analysis.originalText : ℤ), bonus := bonus,
         description := "学术专精 (" ++ toString (countPapers analysis.originalText) ++
                        "篇学术成果)" }]
    else []
   else []) ++
  (let totalExtraScore := achievements.extraScore.leadership + achievements.extraScore.honor +
     achievements.extraScore.competition + achievements.extraScore.certificate
   if 0 < totalExtraScore then
     let bonus := min (jsFloor ((totalExtraScore : ℚ) / 3)) 5
     if 0 < bonus then
       [{ type := .achievement, category := .achievement, level := totalExtraScore,
          bonus := bonus,
          description := "荣誉专精 (超出基础分" ++ toString totalExtraScore ++ "分)" }]
     else []
   else [])

/-! ### Job recommendation and suggestions -/

structure Job where
  category : String
  jmatch : ℚ
  reason : String
deriving Repr, DecidableEq

/-- `slice(0, 3).join('、')`. -/
def joinTop3 (l : List Text) : String :=
  String.intercalate "、" ((l.take 3).map String.mk)

/-- Stable descending insertion by match value (`sort((a, b) => b.match - a.match)`
with JavaScript's stable sort). -/
def insertJobDesc (x : Job) : List Job → List Job
  | [] => [x]
  | y :: ys => if y.jmatch < x.jmatch then x :: y :: ys else y :: insertJobDesc x ys

def sortJobsDesc (l : List Job) : List Job :=
  l.foldl (fun acc j => insertJobDesc j acc) []

/-- The `filter`/`findIndex` dedup: keep the first job of each category. -/
def dedupJobs (l : List Job) : List Job :=
  l.foldl (fun acc j =>
    if acc.any (fun k => k.category == j.category) then acc else acc ++ [j]) []

/-- `recommendJobs`. -/
def recommendJobs (analysis : Analysis) (specializations : List Specialization) : List Job :=
  let skills := analysis.skills
  let aiSuffix := if analysis.aiEnhanced then " (AI识别)" else ""
  let jobs : List Job :=
    (if 0 < skills.programming.length then
      [{ category := "软件开发工程师",
         jmatch := min (75 + (skills.programming.length : ℚ) * 5) 95,
         reason := "掌握" ++ joinTop3 skills.programming ++ "等编程技能" ++ aiSuffix }]
     else []) ++
    (if 0 < skills.data.length then
      [{ category := "数据分析师",
         jmatch := min (70 + (skills.data.length : ℚ) * 6) 90,
         reason := "具备" ++ joinTop3 skills.data ++ "等数据处理能力" ++ aiSuffix }]
     else []) ++
    (if 0 < skills.design.length then
      [{ category := "产品设计师",
         jmatch := min (65 + (skills.design.length : ℚ) * 7) 88,
         reason := "熟练使用" ++ joinTop3 skills.design ++ "等设计工具" ++ aiSuffix }]
     else []) ++
    (if 0 < skills.engineering.length then
      [{ category := "工程技术岗位",
         jmatch := min (60 + (skills.engineering.length : ℚ) * 8) 85,
         reason := "掌握" ++ joinTop3 skills.engineering ++ "等工程技术" ++ aiSuffix }]
     else []) ++
    (if 0 < skills.arts.length then
      [{ category := "文体艺术相关岗位",
         jmatch := min (60 + (skills.arts.length : ℚ) * 6) 80,
         reason := "具备" ++ joinTop3 skills.arts ++ "等文体艺术技能" ++ aiSuffix }]
     else []) ++
    (if 0 < analysis.experience.academicScore then
      [{ category := "学术研究/科研助理",
         jmatch := min (60 + analysis.experience.academicScore * 2) 85,
         reason := "具备学术研究能力和成果" ++ aiSuffix }]
     else []) ++
    (if 0 < analysis.experience.internshipScore then
      [{ category := "商务运营",
         jmatch := min (60 + analysis.experience.internshipScore) 85,
         reason := "具备商业思维和实习经验" ++ aiSuffix }]
     else []) ++
    (specializations.flatMap fun spec =>
      (if spec.type = SpecType.programming ∧ 5 ≤ spec.level then
        [{ category := "高级软件工程师", jmatch := 90,
           reason := "编程技能专精（掌握" ++ toString spec.level ++ "项技术）" ++ aiSuffix }]
       else []) ++
      (if spec.type = SpecType.academic ∧ 3 ≤ spec.level then
        [{ category := "博士研究生/高级研发", jmatch := 88,
           reason := "学术能力突出（" ++ spec.description ++ "）" ++ aiSuffix }]
       else []))
  let jobs2 :=
    if jobs.isEmpty then
      (if 11 ≤ analysis.education.schoolLevel then
        [{ category := "知名企业管培生", jmatch := 75,
           reason := "名校背景，适合大企业培养计划" ++ aiSuffix }]
       else
        [{ category := "管理培训生", jmatch := 60,
           reason := "适合全面发展的应届毕业生" ++ aiSuffix }])
    else jobs
  (sortJobsDesc (dedupJobs jobs2)).take 4

/-- `generateSuggestions`. -/
def generateSuggestions (scores : CategoryScores) (analysis : Analysis) : List String :=
  let s1 := if scores.basicInfo.total < 8 then ["完善个人信息，建议至少填写5项基本信息"] else []
  let s2 :=
    if scores.education.total < 20 then
      (if !analysis.education.hasGPA then ["建议添加GPA或学业成绩信息"] else []) ++
      (if analysis.education.degreeScore < 3 then ["考虑继续深造提升学历层次"] else []) ++
      ["突出学校优势和学术表现"]
    else []
  let s3 :=
    if scores.skills.total < 12 then
      ["增加与目标岗位相关的技能描述", "可以补充文体艺术等综合技能展示"]
    else []
  let s4 :=
    if scores.experience.total < 20 then
      (if analysis.experience.internshipScore < 6 then ["寻找更多实习机会，积累实践经验"] else []) ++
      (if analysis.experience.projectScore < 6 then ["参与更多项目，详细描述项目成果"] else []) ++
      (if analysis.experience.academicScore = 0 then ["考虑参与学术研究或发表论文"] else [])
    else []
  let s5 :=
    if scores.achievements.total < 8 then
      ["积极参加各类竞赛和申请奖学金", "争取担任学生干部或参与社团活动"]
    else []
  let s6 :=
    if 13 ≤ analysis.education.schoolLevel then
      ["充分利用名校背景，可考虑申请知名企业或继续深造"]
    else []
  let s7 :=
    if analysis.aiEnhanced ∧ (0.8 : ℚ) < analysis.aiConfidence then
      ["AI智能分析显示您的简历结构清晰，内容丰富"]
    else if analysis.aiEnhanced ∧ analysis.aiConfidence < (0.5 : ℚ) then
      ["建议优化简历格式，使用更清晰的段落结构"]
    else []
  let all := s1 ++ s2 ++ s3 ++ s4 ++ s5 ++ s6 ++ s7
  if all.isEmpty then ["简历质量很好！建议针对不同岗位定制化调整"] else all

/-! ### `scoreResume` -/

structure ScoreResult where
  baseScore : ℤ
  specializationBonus : ℤ
  totalScore : ℤ
  categoryScores : CategoryScores
  analysis : Analysis
  specializations : List Specialization
  suggestions : List String
  jobRecommendations : List Job
deriving Repr, DecidableEq

/-- `scoreResume(text)` (AI extractor unavailable).  In the
`Object.entries` loop education enters uncapped while every other category
is clamped at its maximum; `Math.round` on the integer-valued totals is the
identity. -/
def scoreResume (text : Text) : ScoreResult :=
  let analysis := analyzeResume text
  let baseScores := calculateScores analysis
  let specializations := detectSpecialization analysis
  let baseTotalScore : ℤ :=
    min baseScores.basicInfo.total maxScores_basicInfo +
    baseScores.education.total +
    min baseScores.skills.total maxScores_skills +
    min baseScores.experience.total maxScores_experience +
    min baseScores.achievements.total maxScores_achievements
  let specializationBonus : ℤ := (specializations.map (fun s => s.bonus)).sum
  { baseScore := baseTotalScore
    specializationBonus := specializationBonus
    totalScore := baseTotalScore + specializationBonus
    categoryScores := baseScores
    analysis := analysis
    specializations := specializations
    suggestions := generateSuggestions baseScores analysis
    jobRecommendations := recommendJobs analysis specializations }

end ResumeScorer

namespace Enhanced

/-!
The "enhanced" `detectSpecialization` variant found in the unnamed source
file (`src/unnamed/part_000`, class `ResumeScorer`, first copy).  Its
analysis carries two extra skill buckets (`languages`, `business`) and
`aiEnhanced` flags, and its experience/achievement overflow bonus uses
divisor 2 with cap 6 instead of divisor 3 with cap 5.
-/

inductive SpecType where
  | programming
  | data
  | design
  | engineering
  | languages
  | business
  | arts
  | internship
  | project
  | academic
  | achievement
deriving Repr, DecidableEq

structure Skills where
  programming : List Text
  data : List Text
  design : List Text
  engineering : List Text
  languages : List Text
  business : List Text
  arts : List Text
  aiEnhanced : Bool
deriving Repr, DecidableEq

structure Experience where
  internshipCount : ℕ
  projectCount : ℕ
  internshipExtraScore : ℚ
  projectExtraScore : ℚ
  academicExtraScore : ℚ
  aiEnhanced : Bool
deriving Repr, DecidableEq

structure Achievements where
  extraScore : ResumeScorer.AchExtra
  aiEnhanced : Bool
deriving Repr, DecidableEq

structure Analysis where
  originalText : Text
  skills : Skills
  experience : Experience
  achievements : Achievements
deriving Repr, DecidableEq

structure Specialization where
  type : SpecType
  category : ResumeScorer.SpecCategory
  level : ℤ
  bonus : ℤ
  description : String
  aiEnhanced : Bool
deriving Repr, DecidableEq

/-- The enhanced `detectSpecialization` (part_000 lines 1902–2060): note the
`/2` divisor and cap 6 on the experience and achievement branches. -/
def detectSpecialization (analysis : Analysis) : List Specialization :=
  let skills := analysis.skills
  let experience := analysis.experience
  let achievements := analysis.achievements
  (if 5 ≤ skills.programming.length then
    [{ type := .programming, category := .skill, level := (skills.programming.length : ℤ),
       bonus := min ((skills.programming.length : ℤ) - 4) 6,
       description := "编程开发专精 (掌握" ++ toString skills.programming.length ++ "项技术)",
       aiEnhanced := skills.aiEnhanced }]
   else []) ++
  (if 4 ≤ skills.data.length then
    [{ type := .data, category := .skill, level := (skills.data.length : ℤ),
       bonus := min ((skills.data.length : ℤ) - 3) 5,
       description := "数据分析专精 (掌握" ++ toString skills.data.length ++ "项技术)",
       aiEnhanced := skills.aiEnhanced }]
   else []) ++
  (if 4 ≤ skills.design.length then
    [{ type := .design, category := .skill, level := (skills.design.length : ℤ),
       bonus := min ((skills.design.length : ℤ) - 3) 5,
       description := "设计创作专精 (掌握" ++ toString skills.design.length ++ "项技术)",
       aiEnhanced := skills.aiEnhanced }]
   else []) ++
  (if 3 ≤ skills.engineering.length then
    [{ type := .engineering, category := .skill, level := (skills.engineering.length : ℤ),
       bonus := min ((skills.engineering.length : ℤ) - 2) 4,
       description := "工程技术专精 (掌握" ++ toString skills.engineering.length ++ "项技术)",
       aiEnhanced := skills.aiEnhanced }]
   else []) ++
  (if 3 ≤ skills.languages.length then
    [{ type := .languages, category := .skill, level := (skills.languages.length : ℤ),
       bonus := min ((skills.languages.length : ℤ) - 2) 4,
       description := "语言能力专精 (掌握" ++ toString skills.languages.length ++ "种语言)",
       aiEnhanced := skills.aiEnhanced }]
   else []) ++
  (if 3 ≤ skills.business.length then
    [{ type := .business, category := .skill, level := (skills.business.length : ℤ),
       bonus := min ((skills.business.length : ℤ) - 2) 3,
       description := "商务技能专精 (掌握" ++ toString skills.business.length ++ "项商务技能)",
       aiEnhanced := skills.aiEnhanced }]
   else []) ++
  (if 4 ≤ skills.arts.length then
    [{ type := .arts, category := .skill, level := (skills.arts.length : ℤ),
       bonus := min ((skills.arts.length : ℤ) - 3) 4,
       description := "文体艺术专精 (掌握" ++ toString skills.arts.length ++ "项技能)",
       aiEnhanced := skills.aiEnhanced }]
   else []) ++
  (if 0 < experience.internshipExtraScore then
    let bonus := min (ResumeScorer.jsFloor (experience.internshipExtraScore / 2)) 6
    if 0 < bonus then
      [{ type := .internship, category := .experience, level := (experience.internshipCount : ℤ),
         bonus := bonus,
         description := "实习经验专精 (" ++ toString experience.internshipCount ++ "次实习经历)",
         aiEnhanced := experience.aiEnhanced }]
    else []
   else []) ++
  (if 0 < experience.projectExtraScore then
    let bonus := min (ResumeScorer.jsFloor (experience.projectExtraScore / 2)) 6
    if 0 < bonus then
      [{ type := .project, category := .experience, level := (experience.projectCount : ℤ),
         bonus := bonus,
         description := "项目经验专精 (" ++ toString experience.projectCount ++ "个项目经验)",
         aiEnhanced := experience.aiEnhanced }]
    else []
   else []) ++
  (if 0 < experience.academicExtraScore then
    let bonus := min (ResumeScorer.jsFloor (experience.academicExtraScore / 2)) 6
    if 0 < bonus then
      [{ type := .academic, category := .experience,
         level := (ResumeScorer.countPapers analysis.originalText : ℤ), bonus := bonus,
         description := "学术研究专精 (" ++
           toString (ResumeScorer.countPapers analysis.originalText) ++ "篇学术成果)",
         aiEnhanced := experience.aiEnhanced }]
    else []
   else []) ++
  (let totalExtraScore := achievements.extraScore.leadership + achievements.extraScore.honor +
     achievements.extraScore.competition + achievements.extraScore.certificate
   if 0 < totalExtraScore then
     let bonus := min (ResumeScorer.jsFloor ((totalExtraScore : ℚ) / 2)) 6
     if 0 < bonus then
       [{ type := .achievement, category := .achievement, level := totalExtraScore,
          bonus := bonus,
          description := "荣誉成就专精 (超出基础分" ++ toString totalExtraScore ++ "分)",
          aiEnhanced := achievements.aiEnhanced }]
     else []
   else [])

end Enhanced

/-! ### Concrete inputs used by the claims -/

/-- The end-to-end scenario input of the spec. -/
def c1text : Text :=
  txt "姓名：张三 电话：13800138000 邮箱：a@b.com 毕业于清华大学，本科，GPA 3.8。掌握Java、Python、React、Node.js、Git。在腾讯实习。获得国家奖学金。"

/-- A minimal analysis with `n` programming skills, used to witness C3. -/
def c3Analysis (n : ℕ) : ResumeScorer.Analysis :=
  { originalText := []
    basicInfo := {}
    education := { schoolLevel := 0, hasGPA := false, gpa := some 0,
                   degrees := [], degreeScore := 0 }
    skills := { programming := List.replicate n (txt "Java"), design := [], data := [],
                engineering := [], arts := [], total := n }
    experience := { internshipCount := 0, projectCount := 0, hasCompanyName := false,
                    hasAchievement := false, internshipScore := 0, projectScore := 0,
                    academicScore := 0, internshipExtraScore := 0,
                    projectExtraScore := 0, academicExtraScore := 0 }
    achievements := { totalScore := 0, details := {}, extraScore := {} }
    wordCount := 0
    hasStructure := false
    aiEnhanced := false
    aiConfidence := 0 }

/-! ### Helper lemmas -/

theorem biStep_fst (d f : Bool) (c : ℕ) : (ResumeScorer.biStep d f c).1 = (f || d) := by
  cases d <;> simp [ResumeScorer.biStep]

theorem biStep_snd (d f : Bool) (c : ℕ) : (ResumeScorer.biStep d f c).2 = c := by
  cases d <;> simp [ResumeScorer.biStep]

theorem jsRound_le_of_le {q : ℚ} {n : ℤ} (h : q ≤ (n : ℚ)) : jsRound q ≤ n := by
  unfold jsRound
  by_contra hlt
  push_neg at hlt
  have h2 : ((n + 1 : ℤ) : ℚ) ≤ q + 1/2 := Rat.le_floor.mp (by omega)
  push_cast at h2
  linarith

theorem jsRound_mono {a b : ℚ} (h : a ≤ b) : jsRound a ≤ jsRound b := by
  unfold jsRound
  exact Rat.le_floor.mpr (le_trans (Rat.le_floor.mp le_rfl) (by linarith))


/-! ### Claim theorems -/

/-- C6: school-tier lookup values: `getSchoolRankScore("清华大学") = 15`,
`getSchoolRankScore("清华") = 15` by alias matching, and
`getSchoolRankScore("某不知名学院") ∈ {2, 3}` (it is 3: the generic
university/college fallthrough). -/
theorem c6_school_rank_lookup :
    ResumeScorer.getSchoolRankScore (txt "清华大学") = 15 ∧
    ResumeScorer.getSchoolRankScore (txt "清华") = 15 ∧
    (ResumeScorer.getSchoolRankScore (txt "某不知名学院") = 2 ∨
     ResumeScorer.getSchoolRankScore (txt "某不知名学院") = 3) := by
  refine ⟨by decide!, by decide!, Or.inr (by decide!)⟩

/-- C4: determinism/idempotence of the analysis: two invocations of
`scoreResume` on the same text (with the AI extractor unavailable) agree on
the base score, the total score, the category scores and the
specialization list — the engine is a pure function of its input. -/
theorem c4_deterministic (t : Text) (r₁ r₂ : ResumeScorer.ScoreResult)
    (h₁ : r₁ = ResumeScorer.scoreResume t) (h₂ : r₂ = ResumeScorer.scoreResume t) :
    r₁.baseScore = r₂.baseScore ∧ r₁.totalScore = r₂.totalScore ∧
    r₁.categoryScores = r₂.categoryScores ∧ r₁.specializations = r₂.specializations := by
  subst h₁; subst h₂; exact ⟨rfl, rfl, rfl, rfl⟩

/-- Witness for C4 at a concrete input. -/
theorem c4_deterministic_witness :
    (ResumeScorer.scoreResume (txt "设")).baseScore =
      (ResumeScorer.scoreResume (txt "设")).baseScore ∧
    (ResumeScorer.scoreResume (txt "设")).totalScore =
      (ResumeScorer.scoreResume (txt "设")).totalScore ∧
    (ResumeScorer.scoreResume (txt "设")).categoryScores =
      (ResumeScorer.scoreResume (txt "设")).categoryScores ∧
    (ResumeScorer.scoreResume (txt "设")).specializations =
      (ResumeScorer.scoreResume (txt "设")).specializations :=
  c4_deterministic (txt "设") _ _ rfl rfl

/-- C1 (evaluation at the failing input): on the spec's end-to-end scenario
text the code produces `basicInfo.total = 0` (the dead count guards),
`education.details.school = 15` and `academic = 5` as claimed, but
`degree = 0` (the traditional degree patterns put the degree keyword in a
capture group the code never reads), 5 distinct programming skills,
`experience.details.internship = 3 > 0`, `achievements` honor `= 0` (the
honor detection is elided in `traditionalAchievementAnalysis`), and
`totalScore = 28`, not `> 60`. -/
theorem c1_end_to_end_eval :
    (ResumeScorer.scoreResume c1text).categoryScores.basicInfo.total = 0 ∧
    (ResumeScorer.scoreResume c1text).categoryScores.education.details.school = 15 ∧
    (ResumeScorer.scoreResume c1text).categoryScores.education.details.academic = 5 ∧
    (ResumeScorer.scoreResume c1text).categoryScores.education.details.degree = 0 ∧
    (ResumeScorer.scoreResume c1text).analysis.skills.programming.length = 5 ∧
    (ResumeScorer.scoreResume c1text).categoryScores.experience.details.internship = 3 ∧
    (ResumeScorer.scoreResume c1text).categoryScores.achievements.details.honor = 0 ∧
    (ResumeScorer.scoreResume c1text).totalScore = 28 := by
  refine ⟨?_, ?_, ?_, ?_, ?_, ?_, ?_, ?_⟩ <;> decide!

/-- C8 counterexample: "every missing signal scores zero" fails on the
empty string — it contains no school signal at all, yet the education
school sub-score is 2 (the unknown-school floor of
`getBasicSchoolScore`), not 0. -/
theorem c8_school_floor_counterexample :
    (ResumeScorer.scoreResume (txt "")).categoryScores.education.details.school = 2 := by
  decide!

/-- C8 (amended): the engine is total — `scoreResume` is a function, so it
terminates without raising on every input — and on the empty string every
category sub-score is 0 except the education school sub-score, which takes
the documented unknown-school floor 2; no specialization is detected and
`totalScore = 2`. -/
theorem c8_empty_input_zeros :
    (ResumeScorer.scoreResume (txt "")).categoryScores.basicInfo.total = 0 ∧
    (ResumeScorer.scoreResume (txt "")).categoryScores.skills.total = 0 ∧
    (ResumeScorer.scoreResume (txt "")).categoryScores.experience.total = 0 ∧
    (ResumeScorer.scoreResume (txt "")).categoryScores.achievements.total = 0 ∧
    (ResumeScorer.scoreResume (txt "")).categoryScores.education.details.degree = 0 ∧
    (ResumeScorer.scoreResume (txt "")).categoryScores.education.details.academic = 0 ∧
    (ResumeScorer.scoreResume (txt "")).specializations = [] ∧
    (ResumeScorer.scoreResume (txt "")).totalScore = 2 := by
  refine ⟨?_, ?_, ?_, ?_, ?_, ?_, ?_, ?_⟩ <;> decide!

/-- C9: the two source variants of `detectSpecialization` are not
extensionally equal: on analyses whose only signal is an internship
overflow of 4, the `resume-parser.js` variant (divisor 3, cap 5) awards
bonus `min(⌊4/3⌋, 5) = 1` while the enhanced variant (divisor 2, cap 6)
awards `min(⌊4/2⌋, 6) = 2`. -/
theorem c9_variant_divergence :
    (ResumeScorer.detectSpecialization
       { originalText := []
         basicInfo := {}
         education := { schoolLevel := 0, hasGPA := false, gpa := some 0,
                        degrees := [], degreeScore := 0 }
         skills := { programming := [], design := [], data := [], engineering := [],
                     arts := [], total := 0 }
         experience := { internshipCount := 2, projectCount := 0, hasCompanyName := false,
                         hasAchievement := false, internshipScore := 10, projectScore := 0,
                         academicScore := 0, internshipExtraScore := 4,
                         projectExtraScore := 0, academicExtraScore := 0 }
         achievements := { totalScore := 0, details := {}, extraScore := {} }
         wordCount := 0, hasStructure := false, aiEnhanced := false,
         aiConfidence := 0 }).map (fun s => s.bonus) = [1] ∧
    (Enhanced.detectSpecialization
       { originalText := []
         skills := { programming := [], data := [], design := [], engineering := [],
                     languages := [], business := [], arts := [], aiEnhanced := false }
         experience := { internshipCount := 2, projectCount := 0, internshipExtraScore := 4,
                         projectExtraScore := 0, academicExtraScore := 0,
                         aiEnhanced := false }
         achievements := { extraScore := {}, aiEnhanced := false } }).map
      (fun s => s.bonus) = [2] ∧
    (1 : ℤ) ≠ 2 := by
  refine ⟨by decide!, by decide!, by decide⟩

/-- C5 (counterexample): appending one additional valid `实习` occurrence
can DECREASE `totalScore`: for the text `设` (total 11, from fuzzy-matched
design-keyword skills), appending `实习` destroys all fuzzy skill matches
and yields total 5. -/
theorem c5_totalscore_counterexample :
    (ResumeScorer.scoreResume (txt "设" ++ txt "实习")).totalScore <
    (ResumeScorer.scoreResume (txt "设")).totalScore := by
  decide!

/-- C10: with no AI extraction, the name/phone/email/address blocks of
`analyzeBasicInfo` set their flags but never increment the count (the
`if (!info.x) count++` guard runs after the flag was set to `true`), so the
count is exactly the number of fired intention/website/social/birthday/
political tests and in particular is at most 5. -/
theorem c10_dead_count_guards (t : Text) :
    (ResumeScorer.analyzeBasicInfo t).name = ResumeScorer.hasName t ∧
    (ResumeScorer.analyzeBasicInfo t).phone = ResumeScorer.testPhone t ∧
    (ResumeScorer.analyzeBasicInfo t).email = ResumeScorer.testEmail t ∧
    (ResumeScorer.analyzeBasicInfo t).count =
      ((if containsAny [txt "求职", txt "应聘", txt "岗位", txt "职位", txt "意向"] t
        then 1 else 0) +
       (if containsAny [txt "github", txt "gitlab", txt "个人网站", txt "博客",
                        txt "portfolio"] (lowerT t) then 1 else 0) +
       (if containsAny [txt "linkedin", txt "微博", txt "知乎"] (lowerT t) then 1 else 0) +
       (if containsAny [txt "出生", txt "生日"] t || ResumeScorer.birthdayNumPattern t
        then 1 else 0) +
       (if containsAny [txt "党员", txt "团员", txt "群众", txt "政治面貌"] t
        then 1 else 0)) ∧
    (ResumeScorer.analyzeBasicInfo t).count ≤ 5 := by
  unfold ResumeScorer.analyzeBasicInfo
  simp only [biStep_fst, biStep_snd, Bool.false_or]
  refine ⟨trivial, trivial, trivial, ?_, ?_⟩ <;> (dsimp only; split_ifs <;> decide)

/-- C2: cap invariants, for every input text: `basicInfo.total ≤ 10`,
`skills.total ≤ 20`, `achievements.total ≤ 15`, every achievements sub-item
≤ 5, every experience sub-item ≤ 10, and the capped experience total is
computed from the capped sub-items alone (the overflow lives only in the
`ExtraScore` fields of the analysis). -/
theorem c2_cap_invariants (t : Text) :
    (ResumeScorer.scoreResume t).categoryScores.basicInfo.total ≤ 10 ∧
    (ResumeScorer.scoreResume t).categoryScores.skills.total ≤ 20 ∧
    (ResumeScorer.scoreResume t).categoryScores.achievements.total ≤ 15 ∧
    ((ResumeScorer.scoreResume t).categoryScores.achievements.details.leadership ≤ 5 ∧
     (ResumeScorer.scoreResume t).categoryScores.achievements.details.honor ≤ 5 ∧
     (ResumeScorer.scoreResume t).categoryScores.achievements.details.competition ≤ 5 ∧
     (ResumeScorer.scoreResume t).categoryScores.achievements.details.certificate ≤ 5) ∧
    ((ResumeScorer.scoreResume t).categoryScores.experience.details.internship ≤ 10 ∧
     (ResumeScorer.scoreResume t).categoryScores.experience.details.project ≤ 10 ∧
     (ResumeScorer.scoreResume t).categoryScores.experience.details.academic ≤ 10) ∧
    (ResumeScorer.scoreResume t).categoryScores.experience.total =
      min ((ResumeScorer.scoreResume t).categoryScores.experience.details.internship +
           (ResumeScorer.scoreResume t).categoryScores.experience.details.project +
           (ResumeScorer.scoreResume t).categoryScores.experience.details.academic) 30 := by
  refine ⟨min_le_right _ _, min_le_right _ _, min_le_right _ _,
    ⟨min_le_right _ _, min_le_right _ _, min_le_right _ _, min_le_right _ _⟩,
    ⟨?_, ?_, ?_⟩, rfl⟩ <;>
  · apply jsRound_le_of_le
    push_cast
    exact min_le_right _ _

set_option maxHeartbeats 1000000 in
/-- The programming entries of `detectSpecialization`: exactly one when the
bucket has at least 5 distinct skills (with bonus `min(length - 4, 5)`),
none otherwise. -/
theorem detectSpecialization_programming_filter (a : ResumeScorer.Analysis) :
    (ResumeScorer.detectSpecialization a).filter
      (fun s => s.type == ResumeScorer.SpecType.programming) =
    (if 5 ≤ a.skills.programming.length then
      [{ type := .programming, category := .skill,
         level := (a.skills.programming.length : ℤ),
         bonus := min ((a.skills.programming.length : ℤ) - 4) 5,
         description := "编程开发专精 (掌握" ++ toString a.skills.programming.length ++
                        "项技术)" }]
     else []) := by
  by_cases h : 5 ≤ a.skills.programming.length <;>
    simp only [ResumeScorer.detectSpecialization, h, if_true, if_false,
      List.filter_append,
      apply_ite (List.filter
        (fun s : ResumeScorer.Specialization =>
          s.type == ResumeScorer.SpecType.programming)),
      List.filter_cons, List.filter_nil, ite_self] <;>
    simp

/-- C3: the programming-specialization boundary: an analysis with exactly 4
distinct programming skills yields no programming specialization; with at
least 5, a programming specialization with bonus `min(count - 4, 5)` is
emitted, hence bonus exactly 1 at count = 5. -/
theorem c3_programming_boundary (a : ResumeScorer.Analysis) :
    (a.skills.programming.length = 4 →
      ∀ s ∈ ResumeScorer.detectSpecialization a,
        s.type ≠ ResumeScorer.SpecType.programming) ∧
    (5 ≤ a.skills.programming.length →
      ∃ s ∈ ResumeScorer.detectSpecialization a,
        s.type = ResumeScorer.SpecType.programming ∧
        s.bonus = min ((a.skills.programming.length : ℤ) - 4) 5) ∧
    (a.skills.programming.length = 5 →
      ∃ s ∈ ResumeScorer.detectSpecialization a,
        s.type = ResumeScorer.SpecType.programming ∧ s.bonus = 1) := by
  have hf := detectSpecialization_programming_filter a
  refine ⟨?_, ?_, ?_⟩
  · intro h4 s hs hty
    have hmem : s ∈ (ResumeScorer.detectSpecialization a).filter
        (fun s => s.type == ResumeScorer.SpecType.programming) :=
      List.mem_filter.mpr ⟨hs, by simp [hty]⟩
    rw [hf, if_neg (by omega)] at hmem
    exact absurd hmem (List.not_mem_nil s)
  all_goals
    intro h5
    rw [if_pos (by omega)] at hf
    obtain ⟨hmem, hty⟩ := List.mem_filter.mp (hf ▸ List.mem_singleton_self _)
    refine ⟨_, hmem, by simp, ?_⟩
  · rfl
  · show min ((a.skills.programming.length : ℤ) - 4) 5 = 1
    rw [h5]; decide


/-- Witness for C3 at concrete analyses with 4 and 5 programming skills. -/
theorem c3_programming_boundary_witness :
    (∀ s ∈ ResumeScorer.detectSpecialization (c3Analysis 4),
      s.type ≠ ResumeScorer.SpecType.programming) ∧
    (∃ s ∈ ResumeScorer.detectSpecialization (c3Analysis 5),
      s.type = ResumeScorer.SpecType.programming ∧ s.bonus = 1) :=
  ⟨(c3_programming_boundary (c3Analysis 4)).1 (by decide),
   (c3_programming_boundary (c3Analysis 5)).2.2 (by decide)⟩

/-- C7: multi-degree scoring: for a degree list with a bachelor degree at a
school of tier score 5 and a master degree at a school of tier score 15,
`calculateSchoolScore` sorts by degree level (bachelor first), averages the
earliest and highest degrees' school scores and rounds:
`round(0.5·5 + 0.5·15) = 10`; `calculateDegreeScore` gives 3 (master) + 1
(one extra distinct degree) = 4. -/
theorem c7_multi_degree_scoring (sA sB t tA tB : Text)
    (hA : ResumeScorer.getSchoolRankScore sA = 5)
    (hB : ResumeScorer.getSchoolRankScore sB = 15) :
    ResumeScorer.calculateSchoolScore t
      [⟨sA, .bachelor, tA⟩, ⟨sB, .master, tB⟩] = 10 ∧
    ResumeScorer.calculateDegreeScore [⟨sA, .bachelor, tA⟩, ⟨sB, .master, tB⟩] = 4 := by
  constructor
  · show min (jsRound ((ResumeScorer.getSchoolRankScore
        ((ResumeScorer.sortDegrees [⟨sA, .bachelor, tA⟩, ⟨sB, .master, tB⟩]).headD
          ⟨[], .unknown, []⟩).school : ℚ) * (1/2) +
        (ResumeScorer.getSchoolRankScore
        ((ResumeScorer.sortDegrees [⟨sA, .bachelor, tA⟩, ⟨sB, .master, tB⟩]).getLastD
          ⟨[], .unknown, []⟩).school : ℚ) * (1/2))) 15 = 10
    have hsort : ResumeScorer.sortDegrees [⟨sA, .bachelor, tA⟩, ⟨sB, .master, tB⟩] =
        [⟨sA, .bachelor, tA⟩, ⟨sB, .master, tB⟩] := by
      simp [ResumeScorer.sortDegrees, ResumeScorer.insertByOrder, ResumeScorer.degreeOrder]
    rw [hsort]
    show min (jsRound ((ResumeScorer.getSchoolRankScore sA : ℚ) * (1/2) +
      (ResumeScorer.getSchoolRankScore sB : ℚ) * (1/2))) 15 = 10
    rw [hA, hB]
    decide!
  · simp [ResumeScorer.calculateDegreeScore, List.filter,
      show (ResumeScorer.DegreeLevel.bachelor != ResumeScorer.DegreeLevel.unknown) = true
        from rfl,
      show (ResumeScorer.DegreeLevel.master != ResumeScorer.DegreeLevel.unknown) = true
        from rfl]

/-- Witness for C7: 深圳大学 has tier score 5 (tier 3) and 清华大学 has
tier score 15 (top tier); the bachelor/master pair scores 10 and 4. -/
theorem c7_multi_degree_scoring_witness :
    ResumeScorer.calculateSchoolScore []
      [⟨txt "深圳大学", .bachelor, []⟩, ⟨txt "清华大学", .master, []⟩] = 10 ∧
    ResumeScorer.calculateDegreeScore
      [⟨txt "深圳大学", .bachelor, []⟩, ⟨txt "清华大学", .master, []⟩] = 4 :=
  c7_multi_degree_scoring (txt "深圳大学") (txt "清华大学") [] [] []
    (by decide!) (by decide!)

/-! ### Scanner unfolding equations (fuel elimination) -/

theorem countAltsAux_congr (alts : List Text) :
    ∀ (f : ℕ) (s : Text), s.length ≤ f → ∀ (g : ℕ), s.length ≤ g →
      countAltsAux alts f s = countAltsAux alts g s := by
  intro f
  induction f using Nat.strong_induction_on with
  | _ f ih =>
    intro s hf g hg
    cases s with
    | nil => cases f <;> cases g <;> rfl
    | cons c cs =>
      simp only [List.length_cons] at hf hg
      obtain ⟨f', rfl⟩ : ∃ f', f = f' + 1 := ⟨f - 1, by omega⟩
      obtain ⟨g', rfl⟩ : ∃ g', g = g' + 1 := ⟨g - 1, by omega⟩
      simp only [countAltsAux]
      cases hfind : alts.find? (fun a => a.isPrefixOf (c :: cs)) with
      | none => exact ih f' (by omega) cs (by omega) g' (by omega)
      | some a =>
        dsimp only
        have hd : (cs.drop (a.length - 1)).length ≤ cs.length := by
          simp only [List.length_drop]; omega
        have := ih f' (by omega) (cs.drop (a.length - 1)) (by omega) g' (by omega)
        omega

theorem countAlts_cons (alts : List Text) (c : Char) (cs : Text) :
    countAlts alts (c :: cs) =
      (match alts.find? (fun a => a.isPrefixOf (c :: cs)) with
       | some a => countAlts alts (cs.drop (a.length - 1)) + 1
       | none => countAlts alts cs) := by
  show countAltsAux alts (cs.length + 1) (c :: cs) = _
  simp only [countAltsAux]
  cases hfind : alts.find? (fun a => a.isPrefixOf (c :: cs)) with
  | none => rfl
  | some a =>
    dsimp only
    exact congrArg (· + 1) (countAltsAux_congr alts cs.length _
      (by simp only [List.length_drop]; omega) _ le_rfl)

theorem countLazyAux_congr (pairs : List (Text × List Text)) :
    ∀ (f : ℕ) (s : Text), s.length ≤ f → ∀ (g : ℕ), s.length ≤ g →
      countLazyAux pairs f s = countLazyAux pairs g s := by
  intro f
  induction f using Nat.strong_induction_on with
  | _ f ih =>
    intro s hf g hg
    cases s with
    | nil => cases f <;> cases g <;> rfl
    | cons c cs =>
      simp only [List.length_cons] at hf hg
      obtain ⟨f', rfl⟩ : ∃ f', f = f' + 1 := ⟨f - 1, by omega⟩
      obtain ⟨g', rfl⟩ : ∃ g', g = g' + 1 := ⟨g - 1, by omega⟩
      simp only [countLazyAux]
      cases hfind : pairs.find? (fun pr => pr.1.isPrefixOf (c :: cs)) with
      | none => exact ih f' (by omega) cs (by omega) g' (by omega)
      | some pr =>
        dsimp only
        cases hcomp : findCompletion pr.2 (cs.drop (pr.1.length - 1)) with
        | none => exact ih f' (by omega) cs (by omega) g' (by omega)
        | some il =>
          dsimp only
          have hd : ((cs.drop (pr.1.length - 1)).drop (il.1 + il.2)).length ≤ cs.length := by
            simp only [List.length_drop]; omega
          have := ih f' (by omega) ((cs.drop (pr.1.length - 1)).drop (il.1 + il.2))
            (by omega) g' (by omega)
          omega

theorem countLazy_cons (pairs : List (Text × List Text)) (c : Char) (cs : Text) :
    countLazy pairs (c :: cs) =
      (match pairs.find? (fun pr => pr.1.isPrefixOf (c :: cs)) with
       | some pr =>
         match findCompletion pr.2 (cs.drop (pr.1.length - 1)) with
         | some il => countLazy pairs ((cs.drop (pr.1.length - 1)).drop (il.1 + il.2)) + 1
         | none => countLazy pairs cs
       | none => countLazy pairs cs) := by
  show countLazyAux pairs (cs.length + 1) (c :: cs) = _
  simp only [countLazyAux]
  cases hfind : pairs.find? (fun pr => pr.1.isPrefixOf (c :: cs)) with
  | none => rfl
  | some pr =>
    dsimp only
    cases hcomp : findCompletion pr.2 (cs.drop (pr.1.length - 1)) with
    | none => rfl
    | some il =>
      exact congrArg (· + 1) (countLazyAux_congr pairs cs.length _
        (by simp only [List.length_drop]; omega) _ le_rfl)

/-! ### Prefix/infix helpers for the append-monotonicity arguments -/

theorem prefix_append_cases {p u v : Text} (h : p <+: u ++ v) :
    p <+: u ∨ ∃ q, p = u ++ q ∧ q ≠ [] ∧ q <+: v := by
  rcases h with ⟨r, hr⟩
  by_cases hle : p.length ≤ u.length
  · left
    have hp : p = (u ++ v).take p.length := by
      rw [← hr, List.take_left]
    rw [hp, List.take_append_of_le_length hle]
    exact List.take_prefix _ _
  · right
    push_neg at hle
    have hu : u = p.take u.length := by
      have h1 : (p ++ r).take u.length = (u ++ v).take u.length := by rw [hr]
      rw [List.take_append_of_le_length (le_of_lt hle), List.take_left] at h1
      exact h1.symm
    refine ⟨p.drop u.length, ?_, ?_, ?_⟩
    · conv_lhs => rw [← List.take_append_drop u.length p]
      rw [← hu]
    · intro hq
      have := congrArg List.length hq
      simp at this
      omega
    · have h2 : (p ++ r).drop u.length = (u ++ v).drop u.length := by rw [hr]
      rw [List.drop_append_of_le_length (le_of_lt hle), List.drop_left] at h2
      exact ⟨r, h2⟩

theorem prefix_append_disjoint {p u v : Text}
    (hdisj : ∀ a ∈ p, a ∉ v) : p <+: u ++ v ↔ p <+: u := by
  constructor
  · intro h
    rcases prefix_append_cases h with h | ⟨q, hq, hqne, hqv⟩
    · exact h
    · exfalso
      obtain ⟨a, ha⟩ := List.exists_mem_of_ne_nil q hqne
      exact hdisj a (hq ▸ List.mem_append_right u ha) (hqv.subset ha)
  · intro h
    exact h.trans (List.prefix_append u v)

theorem infix_append_disjoint {p u v : Text} (hne : p ≠ [])
    (hdisj : ∀ a ∈ p, a ∉ v) : p <:+: u ++ v ↔ p <:+: u := by
  induction u with
  | nil =>
    simp only [List.nil_append]
    constructor
    · intro h
      exfalso
      obtain ⟨a, ha⟩ := List.exists_mem_of_ne_nil p hne
      exact hdisj a ha (h.subset ha)
    · intro h
      exfalso
      rcases h with ⟨s, t, hst⟩
      cases s <;> cases t <;> simp_all
  | cons c u' ih =>
    rw [List.cons_append, List.infix_cons_iff, List.infix_cons_iff, ← List.cons_append,
      prefix_append_disjoint hdisj, ih]

theorem containsSub_iff_infix {p s : Text} : containsSub p s = true ↔ p <:+: s := by
  unfold containsSub
  simp only [List.any_eq_true, List.isPrefixOf_iff_prefix]
  constructor
  · rintro ⟨t, ht, hp⟩
    exact List.infix_iff_prefix_suffix.mpr ⟨t, hp, (List.mem_tails _ _).mp ht⟩
  · intro h
    obtain ⟨t, hp, ht⟩ := List.infix_iff_prefix_suffix.mp h
    exact ⟨t, (List.mem_tails _ _).mpr ht, hp⟩

theorem containsSub_append_disjoint {p u v : Text} (hne : p ≠ [])
    (hdisj : ∀ a ∈ p, a ∉ v) : containsSub p (u ++ v) = containsSub p u := by
  rw [Bool.eq_iff_iff, containsSub_iff_infix, containsSub_iff_infix]
  exact infix_append_disjoint hne hdisj

theorem list_find?_congr {α} {l : List α} {p q : α → Bool}
    (h : ∀ x ∈ l, p x = q x) : l.find? p = l.find? q := by
  induction l with
  | nil => rfl
  | cons x xs ih =>
    simp only [List.find?]
    rw [h x (List.mem_cons_self x xs)]
    cases q x with
    | true => rfl
    | false => exact ih (fun y hy => h y (List.mem_cons_of_mem x hy))

theorem list_any_congr {α} {l : List α} {p q : α → Bool}
    (h : ∀ x ∈ l, p x = q x) : l.any p = l.any q := by
  induction l with
  | nil => rfl
  | cons x xs ih =>
    simp only [List.any_cons]
    rw [h x (List.mem_cons_self x xs), ih (fun y hy => h y (List.mem_cons_of_mem x hy))]

theorem prefix_append_of_length_le {p u : Text} (v : Text) (h : p.length ≤ u.length) :
    p <+: u ++ v ↔ p <+: u := by
  constructor
  · intro hp
    rcases prefix_append_cases hp with h' | ⟨q, hq, hqne, _⟩
    · exact h'
    · exfalso
      have := congrArg List.length hq
      have hq1 : 0 < q.length := List.length_pos.mpr hqne
      simp at this
      omega
  · intro hp
    exact hp.trans (List.prefix_append u v)

/-- Appending `实习` cannot create a new occurrence of `实习` at a position
strictly inside the original text: a crossing occurrence would need the
appended text to start with `习`. -/
theorem shixi_isPrefixOf_cons_append (c : Char) (cs : Text) :
    (txt "实习").isPrefixOf (c :: (cs ++ txt "实习")) =
    (txt "实习").isPrefixOf (c :: cs) := by
  cases cs with
  | nil =>
    show ['实', '习'].isPrefixOf [c, '实', '习'] = ['实', '习'].isPrefixOf [c]
    simp [List.isPrefixOf, show (('习' : Char) == '实') = false from by decide]
  | cons c' cs' =>
    rw [Bool.eq_iff_iff, List.isPrefixOf_iff_prefix, List.isPrefixOf_iff_prefix]
    exact prefix_append_of_length_le (u := c :: c' :: cs') (txt "实习")
      (by simp only [List.length_cons, show (txt "实习").length = 2 from rfl]; omega)

/-- At every position of the original text, the `实习|intern` alternation
matches the extended text exactly as it matches the original (crossing
matches are impossible: `intern` shares no character with `实习`, and a
crossing `实习` would need `习` right after the boundary). -/
theorem internAlts_find?_cons_append (c : Char) (cs : Text) :
    ResumeScorer.internAlts.find? (fun a => a.isPrefixOf (c :: (cs ++ txt "实习"))) =
    ResumeScorer.internAlts.find? (fun a => a.isPrefixOf (c :: cs)) := by
  apply list_find?_congr
  intro a ha
  simp only [ResumeScorer.internAlts, List.mem_cons, List.not_mem_nil, or_false] at ha
  rcases ha with rfl | rfl
  · exact shixi_isPrefixOf_cons_append c cs
  · rw [Bool.eq_iff_iff, List.isPrefixOf_iff_prefix, List.isPrefixOf_iff_prefix]
    exact prefix_append_disjoint (u := c :: cs) (by decide)

/-- Same for the company keys of the lazy pair regex (all five keys are
disjoint from the characters of `实习`). -/
theorem internPairs_find?_cons_append (c : Char) (cs : Text) :
    ResumeScorer.internPairs.find? (fun pr => pr.1.isPrefixOf (c :: (cs ++ txt "实习"))) =
    ResumeScorer.internPairs.find? (fun pr => pr.1.isPrefixOf (c :: cs)) := by
  apply list_find?_congr
  intro pr hpr
  have hd : ∀ a ∈ pr.1, a ∉ txt "实习" := by
    have hall : ∀ q ∈ ResumeScorer.internPairs, ∀ a ∈ q.1, a ∉ txt "实习" := by decide
    exact hall pr hpr
  rw [Bool.eq_iff_iff, List.isPrefixOf_iff_prefix, List.isPrefixOf_iff_prefix]
  exact prefix_append_disjoint (u := c :: cs) hd

theorem countAlts_intern_append_aux :
    ∀ (n : ℕ) (u : Text), u.length ≤ n →
      countAlts ResumeScorer.internAlts (u ++ txt "实习") =
      countAlts ResumeScorer.internAlts u + 1 := by
  intro n
  induction n with
  | zero =>
    intro u hu
    have hnil : u = [] := by cases u <;> simp_all
    subst hnil
    decide
  | succ n ih =>
    intro u hu
    cases u with
    | nil => decide
    | cons c cs =>
      simp only [List.length_cons] at hu
      rw [List.cons_append, countAlts_cons, countAlts_cons, internAlts_find?_cons_append]
      cases hfind : ResumeScorer.internAlts.find? (fun a => a.isPrefixOf (c :: cs)) with
      | none =>
        dsimp only
        exact ih cs (by omega)
      | some a =>
        dsimp only
        have hpa : a.isPrefixOf (c :: cs) := by simpa using List.find?_some hfind
        have halen : a.length - 1 ≤ cs.length := by
          have := (List.isPrefixOf_iff_prefix.mp hpa).length_le
          simp at this
          omega
        rw [List.drop_append_of_le_length halen,
          ih (cs.drop (a.length - 1)) (by simp; omega)]

/-- C5 core lemma 1: appending `实习` adds exactly one match to the global
`/实习|intern/g` count. -/
theorem countAlts_intern_append (u : Text) :
    countAlts ResumeScorer.internAlts (u ++ txt "实习") =
    countAlts ResumeScorer.internAlts u + 1 :=
  countAlts_intern_append_aux u.length u le_rfl

theorem findCompletion_some_le (alts : List Text) :
    ∀ (w : Text) (il : ℕ × ℕ), findCompletion alts w = some il → il.1 + il.2 ≤ w.length := by
  intro w
  induction w with
  | nil => intro il h; simp [findCompletion] at h
  | cons c cs ih =>
    intro il h
    simp only [findCompletion] at h
    cases hfind : alts.find? (fun a => a.isPrefixOf (c :: cs)) with
    | some a =>
      rw [hfind] at h
      dsimp only at h
      cases h
      have hp : a <+: c :: cs := by simpa using List.find?_some hfind
      have := hp.length_le
      simpa using this
    | none =>
      rw [hfind] at h
      dsimp only at h
      by_cases hc : c = '\n'
      · simp [hc] at h
      · simp only [hc, if_false] at h
        obtain ⟨il', hil', rfl⟩ := Option.map_eq_some'.mp h
        have := ih il' hil'
        simp only [List.length_cons]
        omega

theorem findCompletion_some_infix (alts : List Text) :
    ∀ (w : Text) (il : ℕ × ℕ), findCompletion alts w = some il →
      ∃ a ∈ alts, a <:+: w := by
  intro w
  induction w with
  | nil => intro il h; simp [findCompletion] at h
  | cons c cs ih =>
    intro il h
    simp only [findCompletion] at h
    cases hfind : alts.find? (fun a => a.isPrefixOf (c :: cs)) with
    | some a =>
      refine ⟨a, List.mem_of_find?_eq_some hfind, ?_⟩
      have hp : a <+: c :: cs := by simpa using List.find?_some hfind
      exact hp.isInfix
    | none =>
      rw [hfind] at h
      dsimp only at h
      by_cases hc : c = '\n'
      · simp [hc] at h
      · simp only [hc, if_false] at h
        obtain ⟨il', hil', rfl⟩ := Option.map_eq_some'.mp h
        obtain ⟨a, ha, hinf⟩ := ih il' hil'
        exact ⟨a, ha, List.infix_cons_iff.mpr (Or.inr hinf)⟩

/-- Extending the text preserves an existing earliest completion (crossing
occurrences are impossible, so the scan sees the same characters up to the
found position). -/
theorem findCompletion_intern_append_some :
    ∀ (w : Text) (il : ℕ × ℕ), findCompletion ResumeScorer.internAlts w = some il →
      findCompletion ResumeScorer.internAlts (w ++ txt "实习") = some il := by
  intro w
  induction w with
  | nil => intro il h; simp [findCompletion] at h
  | cons c cs ih =>
    intro il h
    simp only [findCompletion] at h
    rw [List.cons_append]
    simp only [findCompletion, internAlts_find?_cons_append]
    cases hfind : ResumeScorer.internAlts.find? (fun a => a.isPrefixOf (c :: cs)) with
    | some a =>
      rw [hfind] at h
      exact h
    | none =>
      rw [hfind] at h
      dsimp only at h ⊢
      by_cases hc : c = '\n'
      · simp [hc] at h
      · simp only [hc, if_false] at h ⊢
        obtain ⟨il', hil', rfl⟩ := Option.map_eq_some'.mp h
        rw [ih il' hil']
        rfl

/-- When the original scan finds no completion, the extended scan either
still finds none (a newline blocked it) or finds exactly the appended
`实习` at the end — and in the latter case the original text contains no
occurrence of the alternation at all. -/
theorem findCompletion_intern_append_none :
    ∀ (w : Text), findCompletion ResumeScorer.internAlts w = none →
      findCompletion ResumeScorer.internAlts (w ++ txt "实习") = none ∨
      (findCompletion ResumeScorer.internAlts (w ++ txt "实习") = some (w.length, 2) ∧
       ∀ a ∈ ResumeScorer.internAlts, ¬ a <:+: w) := by
  intro w
  induction w with
  | nil =>
    intro _
    right
    refine ⟨by decide, ?_⟩
    intro a ha hinf
    rw [List.infix_nil] at hinf
    subst hinf
    revert ha
    decide
  | cons c cs ih =>
    intro h
    simp only [findCompletion] at h
    rw [List.cons_append]
    simp only [findCompletion, internAlts_find?_cons_append]
    cases hfind : ResumeScorer.internAlts.find? (fun a => a.isPrefixOf (c :: cs)) with
    | some a =>
      rw [hfind] at h
      simp at h
    | none =>
      rw [hfind] at h
      dsimp only at h ⊢
      by_cases hc : c = '\n'
      · left; simp [hc]
      · simp only [hc, if_false] at h ⊢
        have hcs : findCompletion ResumeScorer.internAlts cs = none :=
          Option.map_eq_none'.mp h
        rcases ih hcs with hnone | ⟨hsome, hnoocc⟩
        · left
          rw [hnone]
          rfl
        · right
          constructor
          · rw [hsome]
            rfl
          · intro a ha hinf
            rcases List.infix_cons_iff.mp hinf with hpre | hinf'
            · have hnp := List.find?_eq_none.mp hfind a ha
              exact hnp (by simpa [List.isPrefixOf_iff_prefix] using hpre)
            · exact hnoocc a ha hinf'

/-- If the text beyond the first two characters contains no occurrence of
`实习|intern`, the lazy pair regex cannot match at all (every match needs a
completion at offset at least 2). -/
theorem countLazy_intern_zero :
    ∀ (n : ℕ) (u : Text), u.length ≤ n →
      (∀ a ∈ ResumeScorer.internAlts, ¬ a <:+: u.drop 2) →
      countLazy ResumeScorer.internPairs u = 0 := by
  intro n
  induction n with
  | zero =>
    intro u hu _
    have hnil : u = [] := by cases u <;> simp_all
    subst hnil
    rfl
  | succ n ih =>
    intro u hu h
    cases u with
    | nil => rfl
    | cons c cs =>
      simp only [List.length_cons] at hu
      have hcs : ∀ a ∈ ResumeScorer.internAlts, ¬ a <:+: cs.drop 2 := by
        intro a ha hinf
        have hsuf : cs.drop 2 <:+ cs.drop 1 := by
          have h1 := List.drop_suffix 1 (cs.drop 1)
          rwa [List.drop_drop] at h1
        exact h a ha (hinf.trans hsuf.isInfix)
      rw [countLazy_cons]
      cases hfind : ResumeScorer.internPairs.find? (fun pr => pr.1.isPrefixOf (c :: cs)) with
      | none =>
        dsimp only
        exact ih cs (by omega) hcs
      | some pr =>
        dsimp only
        have hpr := List.mem_of_find?_eq_some hfind
        have hp2 : pr.1.length = 2 ∧ pr.2 = ResumeScorer.internAlts := by
          have hall : ∀ q ∈ ResumeScorer.internPairs,
              q.1.length = 2 ∧ q.2 = ResumeScorer.internAlts := by decide
          exact hall pr hpr
        rw [hp2.1, hp2.2]
        cases hcomp : findCompletion ResumeScorer.internAlts (cs.drop 1) with
        | some il =>
          exfalso
          obtain ⟨a, ha, hinf⟩ := findCompletion_some_infix _ _ _ hcomp
          exact h a ha hinf
        | none =>
          dsimp only
          exact ih cs (by omega) hcs

/-- C5 core lemma 2: appending `实习` never decreases the number of lazy
company–internship pair matches. -/
theorem countLazy_intern_append :
    ∀ (n : ℕ) (u : Text), u.length ≤ n →
      countLazy ResumeScorer.internPairs u ≤
      countLazy ResumeScorer.internPairs (u ++ txt "实习") := by
  intro n
  induction n with
  | zero =>
    intro u hu
    have hnil : u = [] := by cases u <;> simp_all
    subst hnil
    exact Nat.zero_le _
  | succ n ih =>
    intro u hu
    cases u with
    | nil => exact Nat.zero_le _
    | cons c cs =>
      simp only [List.length_cons] at hu
      rw [List.cons_append, countLazy_cons, countLazy_cons, internPairs_find?_cons_append]
      cases hfind : ResumeScorer.internPairs.find? (fun pr => pr.1.isPrefixOf (c :: cs)) with
      | none =>
        dsimp only
        exact ih cs (by omega)
      | some pr =>
        dsimp only
        have hpr := List.mem_of_find?_eq_some hfind
        have hp2 : pr.1.length = 2 ∧ pr.2 = ResumeScorer.internAlts := by
          have hall : ∀ q ∈ ResumeScorer.internPairs,
              q.1.length = 2 ∧ q.2 = ResumeScorer.internAlts := by decide
          exact hall pr hpr
        have hlen1 : 1 ≤ cs.length := by
          have hpa : pr.1 <+: c :: cs := by simpa using List.find?_some hfind
          have := hpa.length_le
          simp only [List.length_cons, hp2.1] at this
          omega
        simp only [hp2.1, hp2.2, show (2 : ℕ) - 1 = 1 from rfl]
        rw [List.drop_append_of_le_length hlen1]
        cases hcomp : findCompletion ResumeScorer.internAlts (cs.drop 1) with
        | some il =>
          rw [findCompletion_intern_append_some _ _ hcomp]
          dsimp only
          have hle : il.1 + il.2 ≤ (cs.drop 1).length :=
            findCompletion_some_le _ _ _ hcomp
          rw [List.drop_append_of_le_length hle]
          have hrec := ih ((cs.drop 1).drop (il.1 + il.2))
            (by simp only [List.length_drop]; omega)
          exact Nat.add_le_add_right hrec 1
        | none =>
          rcases findCompletion_intern_append_none _ hcomp with hnone | ⟨hsome, hnoocc⟩
          · rw [hnone]
            dsimp only
            exact ih cs (by omega)
          · rw [hsome]
            dsimp only
            have hzero : countLazy ResumeScorer.internPairs cs = 0 := by
              apply countLazy_intern_zero cs.length cs le_rfl
              intro a ha hinf
              have hsuf : cs.drop 2 <:+ cs.drop 1 := by
                have h1 := List.drop_suffix 1 (cs.drop 1)
                rwa [List.drop_drop] at h1
              exact hnoocc a ha (hinf.trans hsuf.isInfix)
            have hnil : (cs.drop 1 ++ txt "实习").drop ((cs.drop 1).length + 2) = [] := by
              apply List.drop_eq_nil_of_le
              simp [show (txt "实习").length = 2 from rfl]
            rw [hnil, hzero]
            exact Nat.zero_le _

/-- C5 (amended): appending one further `实习` occurrence to the résumé text
never decreases the rounded internship detail score; the claim's original
conclusion about `totalScore` fails (see the counterexample). -/
theorem c5_internship_monotone (t : Text) :
    (ResumeScorer.scoreResume t).categoryScores.experience.details.internship ≤
    (ResumeScorer.scoreResume (t ++ txt "实习")).categoryScores.experience.details.internship := by
  show jsRound (ResumeScorer.analyzeExperience t).internshipScore ≤
    jsRound (ResumeScorer.analyzeExperience (t ++ txt "实习")).internshipScore
  apply jsRound_mono
  show min (((max (countAlts ResumeScorer.internAlts (lowerT t))
        (countLazy ResumeScorer.internPairs (lowerT t)) : ℕ) : ℚ) *
      (if containsAny ResumeScorer.companyLits (lowerT t) then 3 else 2.5)) 10 ≤
    min (((max (countAlts ResumeScorer.internAlts (lowerT (t ++ txt "实习")))
        (countLazy ResumeScorer.internPairs (lowerT (t ++ txt "实习"))) : ℕ) : ℚ) *
      (if containsAny ResumeScorer.companyLits (lowerT (t ++ txt "实习")) then 3 else 2.5)) 10
  have hmap : List.map Char.toLower (txt "实习") = txt "实习" := by decide
  have hlower : lowerT (t ++ txt "实习") = lowerT t ++ txt "实习" := by
    simp only [lowerT, List.map_append, hmap]
  rw [hlower]
  have hcomp : containsAny ResumeScorer.companyLits (lowerT t ++ txt "实习") =
      containsAny ResumeScorer.companyLits (lowerT t) := by
    apply list_any_congr
    intro l hl
    have hprops : l ≠ [] ∧ ∀ a ∈ l, a ∉ txt "实习" := by
      have hall : ∀ q ∈ ResumeScorer.companyLits, q ≠ [] ∧ ∀ a ∈ q, a ∉ txt "实习" := by
        decide
      exact hall l hl
    exact containsSub_append_disjoint hprops.1 hprops.2
  rw [hcomp]
  have hcount : max (countAlts ResumeScorer.internAlts (lowerT t))
      (countLazy ResumeScorer.internPairs (lowerT t)) ≤
      max (countAlts ResumeScorer.internAlts (lowerT t ++ txt "实习"))
      (countLazy ResumeScorer.internPairs (lowerT t ++ txt "实习")) := by
    apply max_le_max
    · rw [countAlts_intern_append]
      exact Nat.le_add_right _ 1
    · exact countLazy_intern_append _ _ le_rfl
  apply min_le_min _ le_rfl
  apply mul_le_mul_of_nonneg_right
  · exact_mod_cast hcount
  · cases containsAny ResumeScorer.companyLits (lowerT t) <;> norm_num
